import Mathlib

/-!
Verification of the mscolab `FileManager` (mslib/mscolab/file_manager.py).

The relational metadata store (Operation / Permission / Change rows), the
per-operation file store (`{data_dir}/{path}/main.ftml`) and the per-operation
git repository are shallowly embedded as an explicit state record `MState`.
SQLAlchemy queries become list lookups (`find?` models `.first()`, `filter`
models `.filter(...).all()`); a git repository is a list of commits
`(hash, content of main.ftml at that commit)` with fresh hashes drawn from a
counter; fallible Python code (attribute errors on `None`, filesystem or git
errors) is modelled with `Except String`.
-/

set_option linter.unusedVariables false

deriving instance DecidableEq for Except

namespace MSS

/-- Row of the `Operation` table (mslib/mscolab/models.py, referenced from
file_manager.py): id, unique path, description, category tag, active flag. -/
structure Operation where
  id : Nat
  path : String
  description : String
  category : String
  active : Bool
deriving DecidableEq

/-- Row of the `Permission` table: `(u_id, op_id, access_level)`. -/
structure Permission where
  u_id : Nat
  op_id : Nat
  access_level : String
deriving DecidableEq

/-- Row of the `Change` table: id, operation, author, commit hash, optional
version name. -/
structure Change where
  id : Nat
  op_id : Nat
  u_id : Nat
  commit_hash : Nat
  version_name : Option String
deriving DecidableEq

/-- The state a `FileManager` call works on: database tables, the file store
(`path` of an operation mapped to the current text of its `main.ftml`), the
git repositories (`path` mapped to the commit list, newest first), and the
id/hash counters that model autoincrement columns and fresh commit hashes. -/
structure MState where
  operations : List Operation
  permissions : List Permission
  changes : List Change
  files : List (String × String)
  repos : List (String × List (Nat × String))
  nextOpId : Nat
  nextHash : Nat
  nextChangeId : Nat
deriving DecidableEq

/-- Modelled from the spec: `mscolab_settings.GROUP_POSTFIX`, the reserved
suffix of category-template operations (the conf module is not under src;
the spec names the template path convention as `"{category}Group"`). -/
def GROUP_SUFFIX : String := "Group"

/-- Modelled from the spec: `mscolab_settings.STUB_CODE`, the fixed stub
document written by `create_operation` when no content is supplied (the conf
module is not under src; the exact text is immaterial to the claims). -/
def STUB_CODE : String := "stub flight track document"

/-- `Operation.query.filter_by(id=op_id).first()`. -/
def findOperation (st : MState) (op_id : Nat) : Option Operation :=
  st.operations.find? (fun o => decide (o.id = op_id))

/-- `Operation.query.filter_by(path=path).first()`. -/
def findOperationByPath (st : MState) (path : String) : Option Operation :=
  st.operations.find? (fun o => decide (o.path = path))

/-- `Permission.query.filter_by(u_id=u_id, op_id=op_id).first()`. -/
def findPermission (st : MState) (u op : Nat) : Option Permission :=
  st.permissions.find? (fun p => decide (p.u_id = u ∧ p.op_id = op))

/-- `Change.query.filter_by(id=ch_id).first()`. -/
def findChange (st : MState) (ch : Nat) : Option Change :=
  st.changes.find? (fun c => decide (c.id = ch))

/-- Read `main.ftml` of the operation directory `path` (none: no such file). -/
def lookupFile (st : MState) (path : String) : Option String :=
  (st.files.find? (fun e => decide (e.1 = path))).map (fun e => e.2)

/-- Write `main.ftml` of the operation directory `path` (creating it). -/
def setFile (files : List (String × String)) (path text : String) :
    List (String × String) :=
  if files.any (fun e => decide (e.1 = path)) then
    files.map (fun e => if e.1 = path then (path, text) else e)
  else files ++ [(path, text)]

/-- The git repository rooted at the operation directory `path`. -/
def lookupRepo (st : MState) (path : String) : Option (List (Nat × String)) :=
  (st.repos.find? (fun e => decide (e.1 = path))).map (fun e => e.2)

/-- Replace (or create) the git repository rooted at `path`. -/
def setRepo (repos : List (String × List (Nat × String))) (path : String)
    (commits : List (Nat × String)) : List (String × List (Nat × String)) :=
  if repos.any (fun e => decide (e.1 = path)) then
    repos.map (fun e => if e.1 = path then (path, commits) else e)
  else repos ++ [(path, commits)]

/-- `repo.git.show(f"{hash}:main.ftml")`: content of `main.ftml` at a commit. -/
def repoShow (commits : List (Nat × String)) (h : Nat) : Option String :=
  (commits.find? (fun e => decide (e.1 = h))).map (fun e => e.2)

/-- `is_member`: true only if a permission row exists. -/
def is_member (st : MState) (u op : Nat) : Bool :=
  (findPermission st u op).isSome

/-- `is_admin`: true only if the user's permission row is at level admin. -/
def is_admin (st : MState) (u op : Nat) : Bool :=
  match findPermission st u op with
  | none => false
  | some perm => decide (perm.access_level = "admin")

/-- `is_creator`: true only if the user's permission row is at level creator. -/
def is_creator (st : MState) (u op : Nat) : Bool :=
  match findPermission st u op with
  | none => false
  | some perm => decide (perm.access_level = "creator")

/-- `is_collaborator`: true only if the row is at level collaborator. -/
def is_collaborator (st : MState) (u op : Nat) : Bool :=
  match findPermission st u op with
  | none => false
  | some perm => decide (perm.access_level = "collaborator")

/-- The characters of a path the path validation rejects
(`path.find("/") != -1 or path.find("\\") != -1 or (" " in path)`). -/
def pathBad (path : String) : Bool :=
  path.data.contains '/' || path.data.contains '\\' || path.data.contains ' '

/-- `s.endswith(suffix)` on Python strings. -/
def strEndsWith (s suffix : String) : Bool :=
  List.isSuffixOf suffix.data s.data

/-- The characters before the first occurrence of `sep`, the whole list when
`sep` does not occur: `path.split(sep)[0]` for a non-empty Python separator. -/
def splitHead (sep : List Char) : List Char → List Char
  | [] => []
  | c :: cs => if sep.isPrefixOf (c :: cs) then [] else c :: splitHead sep cs

/-- `operation.path.split(mscolab_settings.GROUP_POSTFIX)[0]`: the category a
group operation's path names. -/
def categoryOfPath (path : String) : String :=
  String.mk (splitHead GROUP_SUFFIX.data path.data)

/-- The line boundaries of Python `str.splitlines`: LF, VT, FF, CR, the
separators FS/GS/RS, NEL, LINE SEPARATOR and PARAGRAPH SEPARATOR (CR LF is
collapsed to a single boundary by `splitlinesAux`). -/
def isLineBreak (ch : Char) : Bool :=
  ch.toNat = 0x0a || ch.toNat = 0x0b || ch.toNat = 0x0c || ch.toNat = 0x0d ||
  ch.toNat = 0x1c || ch.toNat = 0x1d || ch.toNat = 0x1e || ch.toNat = 0x85 ||
  ch.toNat = 0x2028 || ch.toNat = 0x2029

/-- Python `str.splitlines`: lines without their terminators, no empty final
line for a trailing terminator, and `"\r\n"` counted as one boundary
(`prevCR` records that the previous character was a CR whose line was already
emitted, so a directly following LF is consumed silently). -/
def splitlinesAux (prevCR : Bool) (acc : List Char) : List Char → List String
  | [] => if acc = [] then [] else [String.mk acc.reverse]
  | ch :: cs =>
    if prevCR ∧ ch = '\n' then splitlinesAux false [] cs
    else if ch = '\r' then String.mk acc.reverse :: splitlinesAux true [] cs
    else if isLineBreak ch then String.mk acc.reverse :: splitlinesAux false [] cs
    else splitlinesAux false (ch :: acc) cs

/-- `content.splitlines()`. -/
def splitlines (s : String) : List String :=
  splitlinesAux false [] s.data

/-- Two permission rows that would collide on the database unique constraint. -/
def sameKey (p q : Permission) : Bool :=
  decide (p.u_id = q.u_id ∧ p.op_id = q.op_id)

/-- Modelled from the spec: the `Permission` table carries a unique constraint
on `(u_id, op_id)` (models.py is not under src; the spec states "at most one
Permission row per (user_id, operation_id) pair" and that duplicate permission
inserts raise `IntegrityError`). `dupKey` detects a violating table. -/
def dupKey : List Permission → Bool
  | [] => false
  | p :: ps => ps.any (sameKey p) || dupKey ps

/-- `db.session.commit()` after staging permission inserts: on a duplicate
`(u_id, op_id)` the commit raises `IntegrityError`, is rolled back and the
caller returns `False`; otherwise the staged rows become visible. -/
def commitPerms (st : MState) (staged : List Permission) :
    Except String (MState × Bool) :=
  if dupKey (st.permissions ++ staged) then .ok (st, false)
  else .ok ({ st with permissions := st.permissions ++ staged }, true)

/-- Comparison of characters by code point, as Python compares them. -/
def strLeB : List Char → List Char → Bool
  | [], _ => true
  | _ :: _, [] => false
  | a :: as, b :: bs => if a = b then strLeB as bs else decide (a < b)

/-- Python's ordering on `(int, str)` tuples, used by `sorted`. -/
def pairLeB (a b : Nat × String) : Bool :=
  if a.1 = b.1 then strLeB a.2.data b.2.data else decide (a.1 < b.1)

/-- The ordering `pairLeB` as a relation. -/
def pairLe (a b : Nat × String) : Prop := pairLeB a b = true

instance : DecidableRel pairLe := fun a b =>
  inferInstanceAs (Decidable (pairLeB a b = true))

/-- `sorted(...)` on a Python list of `(u_id, access_level)` tuples. -/
def sortPairs (l : List (Nat × String)) : List (Nat × String) :=
  List.insertionSort pairLe l

/-- The existing permissions of the import target the three-way diff is
computed against: rows of `current_op_id` excluding the requester and any
creator-level row (file_manager.py lines 584-587). -/
def existingPerms (st : MState) (current u : Nat) : List Permission :=
  st.permissions.filter (fun p =>
    decide (p.op_id = current ∧ p.u_id ≠ u ∧ p.access_level ≠ "creator"))

/-- `Permission.query.filter_by(op_id=current_op_id, access_level="creator").first()`. -/
def findCreatorPerm (st : MState) (current : Nat) : Option Permission :=
  st.permissions.find? (fun p =>
    decide (p.op_id = current ∧ p.access_level = "creator"))

/-- The permissions read off the import source: rows of `import_op_id`
excluding the requester and the target operation's creator (lines 591-594). -/
def importPerms (st : MState) (import_op u creator_uid : Nat) : List Permission :=
  st.permissions.filter (fun p =>
    decide (p.op_id = import_op ∧ p.u_id ≠ u ∧ p.u_id ≠ creator_uid))

/-- Line 604-605: a permission imported at level creator is substituted by
admin; every other level is copied unchanged. -/
def downgrade (lvl : String) : String :=
  if lvl = "creator" then "admin" else lvl

/-- `is_perm`: the `(u_id, access_level)` pairs of the existing rows. -/
def isPermOf (l : List Permission) : List (Nat × String) :=
  l.map (fun p => (p.u_id, p.access_level))

/-- `new_perm`: the `(u_id, access_level)` pairs to be applied, with creator
downgraded to admin. -/
def newPermOf (l : List Permission) : List (Nat × String) :=
  l.map (fun p => (p.u_id, downgrade p.access_level))

/-- The table after the delete loop (lines 611-618): every existing row of the
diff whose `(u_id, access_level)` pair is not in `new_perm` is deleted, then
the session is flushed. -/
def afterDeletePerms (st : MState) (current u : Nat)
    (new_perm : List (Nat × String)) : List Permission :=
  st.permissions.filter (fun p =>
    decide (¬(p.op_id = current ∧ p.u_id ≠ u ∧ p.access_level ≠ "creator" ∧
      (p.u_id, p.access_level) ∉ new_perm)))

/-- One iteration of the add loop (lines 621-626): a pair not already among
the existing pairs is inserted unless a row for that user on the target
operation is visible (the flushed deletions and the adds staged so far). -/
def addStep (current : Nat) (is_perm : List (Nat × String))
    (acc : List Permission) (q : Nat × String) : List Permission :=
  if q ∉ is_perm ∧
      (acc.find? (fun p => decide (p.u_id = q.1 ∧ p.op_id = current))) = none
  then acc ++ [⟨q.1, current, q.2⟩] else acc

/-- `dict(l)[u]` for an association list, the last binding winning. -/
def assocLevel (l : List (Nat × String)) (u : Nat) : Option String :=
  (l.reverse.find? (fun e => decide (e.1 = u))).map (fun e => e.2)

/-- The `{"add_users": ..., "modify_users": ..., "delete_users": ...}` payload
of a successful `import_permissions`. -/
structure ImportEvents where
  add_users : List Nat
  modify_users : List Nat
  delete_users : List Nat
deriving DecidableEq

/-- `import_permissions(import_op_id, current_op_id, u_id)`
(file_manager.py lines 576-645). The requester must be creator or admin of the
target and a member of the source; the three-way diff of the source's pairs
(creator downgraded to admin) against the target's existing pairs is applied
unless the two sorted pair lists already agree. The creator lookup
dereferences `.u_id` without a `None` check, so a target with no creator row
raises `AttributeError` (modelled as `.error`). The event lists are python
sets; their order is not modelled beyond a fixed enumeration. -/
def import_permissions (st : MState) (import_op_id current_op_id u_id : Nat) :
    Except String (MState × (Bool × Option ImportEvents × String)) :=
  if is_creator st u_id current_op_id = false ∧
      is_admin st u_id current_op_id = false then
    .ok (st, (false, none, "Not the creator or admin of this operation"))
  else
    match findPermission st u_id import_op_id with
    | none => .ok (st, (false, none, "Not a member of this operation"))
    | some _ =>
      let existing_perms := existingPerms st current_op_id u_id
      let existing_users : List Nat := (existing_perms.map (fun p => p.u_id)).dedup
      match findCreatorPerm st current_op_id with
      | none => .error "AttributeError: NoneType has no attribute u_id"
      | some creator_perm =>
        let import_perms := importPerms st import_op_id u_id creator_perm.u_id
        let import_users : List Nat := (import_perms.map (fun p => p.u_id)).dedup
        let is_perm := isPermOf existing_perms
        let new_perm := newPermOf import_perms
        if sortPairs new_perm = sortPairs is_perm then
          .ok (st, (false, none, "Permissions are already given"))
        else
          let final := new_perm.foldl (addStep current_op_id is_perm)
            (afterDeletePerms st current_op_id u_id new_perm)
          let delete_users := existing_users.filter (fun v =>
            decide (v ∉ import_users))
          let add_users := import_users.filter (fun v =>
            decide (v ∉ existing_users))
          let modify_users := import_users.filter (fun v =>
            decide (v ∈ existing_users ∧
              assocLevel new_perm v ≠ assocLevel is_perm v))
          if dupKey final then
            .ok (st, (false, none,
              "Some error occurred! Could not import permissions. Please try again."))
          else
            .ok ({ st with permissions := final },
              (true, some ⟨add_users, modify_users, delete_users⟩, "success"))

/-- `create_operation(path, description, user, content, category, active)`
(lines 43-82): path validation, uniqueness check, insertion of the Operation
and its creator Permission, seeding of permissions from the category template
when one exists, creation of the directory with the supplied content or the
stub, git init and the initial commit. `makedir` on an already existing
directory raises (modelled as `.error`). -/
def create_operation (st : MState) (path description : String) (u_id : Nat)
    (content : Option String) (category : String) (active : Bool) :
    Except String (MState × Bool) :=
  if pathBad path then .ok (st, false)
  else if (findOperationByPath st path).isSome then .ok (st, false)
  else
    let operation_id := st.nextOpId
    let operation : Operation := ⟨operation_id, path, description, category, active⟩
    let st1 : MState := { st with
      operations := st.operations ++ [operation],
      permissions := st.permissions ++ [⟨u_id, operation_id, "creator"⟩],
      nextOpId := operation_id + 1 }
    match (if strEndsWith path GROUP_SUFFIX = false then
        match findOperationByPath st1 (category ++ GROUP_SUFFIX) with
        | some import_op => import_permissions st1 import_op.id operation_id u_id
        | none => .ok (st1, (false, none, ""))
      else .ok (st1, (false, none, ""))) with
    | .error e => .error e
    | .ok (st2, _) =>
      if (lookupFile st2 path).isSome then .error "DirectoryExists"
      else
        let text := match content with
          | some c => c
          | none => STUB_CODE
        let st3 : MState := { st2 with files := setFile st2.files path text }
        let commits := (lookupRepo st3 path).getD []
        .ok ({ st3 with
          repos := setRepo st3.repos path ((st3.nextHash, text) :: commits),
          nextHash := st3.nextHash + 1 }, true)

/-- `save_file(op_id, content, user)` (lines 300-335): no permission check;
the new content always overwrites `main.ftml`; a commit and a Change row are
recorded only when the line-based unified diff of old and new content is
non-empty (the diff is empty exactly when the two `splitlines` lists agree). -/
def save_file (st : MState) (op_id : Nat) (content : String) (u_id : Nat) :
    Except String (MState × Bool) :=
  match findOperation st op_id with
  | none => .ok (st, false)
  | some operation =>
    match lookupFile st operation.path with
    | none => .error "ResourceNotFound"
    | some old_data =>
      let diff_empty := decide (splitlines old_data = splitlines content)
      let st1 : MState := { st with files := setFile st.files operation.path content }
      if diff_empty then .ok (st1, false)
      else
        match lookupRepo st1 operation.path with
        | none => .error "InvalidGitRepositoryError"
        | some commits =>
          .ok ({ st1 with
            repos := setRepo st1.repos operation.path
              ((st1.nextHash, content) :: commits),
            changes := st1.changes ++
              [⟨st1.nextChangeId, op_id, u_id, st1.nextHash, none⟩],
            nextHash := st1.nextHash + 1,
            nextChangeId := st1.nextChangeId + 1 }, true)

/-- `get_file(op_id, user)` (lines 337-351): requires a permission row and an
existing operation (returned `False` is modelled as `none`), then reads
`main.ftml`. -/
def get_file (st : MState) (op_id u_id : Nat) : Except String (Option String) :=
  match findPermission st u_id op_id with
  | none => .ok none
  | some _ =>
    match findOperation st op_id with
    | none => .ok none
    | some operation =>
      match lookupFile st operation.path with
      | none => .error "ResourceNotFound"
      | some d => .ok (some d)

/-- `get_change_content(ch_id, user)` (lines 386-405): the first query's
result is dereferenced (`ch.op_id`) before any `None` check, so a missing
change id raises `AttributeError`; a missing hash raises from `git show`
uncaught. -/
def get_change_content (st : MState) (ch_id u_id : Nat) :
    Except String (Option String) :=
  match findChange st ch_id with
  | none => .error "AttributeError: NoneType has no attribute op_id"
  | some ch =>
    match findPermission st u_id ch.op_id with
    | none => .ok none
    | some _ =>
      match findOperation st ch.op_id with
      | none => .error "AttributeError: NoneType has no attribute path"
      | some operation =>
        match lookupRepo st operation.path with
        | none => .error "InvalidGitRepositoryError"
        | some commits =>
          match repoShow commits ch.commit_hash with
          | none => .error "GitCommandError"
          | some c => .ok (some c)

/-- `set_version_name(ch_id, op_id, u_id, version_name)` (lines 407-415):
requires admin, creator or collaborator; the update matches whatever rows have
the given change id (possibly none) and `True` is returned regardless. -/
def set_version_name (st : MState) (ch_id op_id u_id : Nat)
    (version_name : Option String) : MState × Bool :=
  if is_admin st u_id op_id = false ∧ is_creator st u_id op_id = false ∧
      is_collaborator st u_id op_id = false then (st, false)
  else
    ({ st with changes := st.changes.map (fun c =>
        if c.id = ch_id then { c with version_name := version_name } else c) },
      true)

/-- `undo_changes(ch_id, user)` (lines 417-450): the change row is
dereferenced (`ch.op_id`) in the authorization check before the `None` check,
so a missing change id raises `AttributeError`; `git.Repo` is constructed
outside the `try`, so a missing repository raises; failures inside the `try`
(such as an unknown commit hash) are caught and become `False`; on success the
content at the change's commit is written, committed as a new commit and a new
Change row is recorded for the acting user. -/
def undo_changes (st : MState) (ch_id u_id : Nat) :
    Except String (MState × Bool) :=
  match findChange st ch_id with
  | none => .error "AttributeError: NoneType has no attribute op_id"
  | some ch =>
    if is_admin st u_id ch.op_id = false ∧ is_creator st u_id ch.op_id = false ∧
        is_collaborator st u_id ch.op_id = false then
      .ok (st, false)
    else
      match findOperation st ch.op_id with
      | none => .ok (st, false)
      | some operation =>
        match lookupRepo st operation.path with
        | none => .error "InvalidGitRepositoryError"
        | some commits =>
          match repoShow commits ch.commit_hash with
          | none => .ok (st, false)
          | some file_content =>
            let st1 : MState :=
              { st with files := setFile st.files operation.path file_content }
            .ok ({ st1 with
              repos := setRepo st1.repos operation.path
                ((st1.nextHash, file_content) :: commits),
              changes := st1.changes ++
                [⟨st1.nextChangeId, ch.op_id, u_id, st1.nextHash, none⟩],
              nextHash := st1.nextHash + 1,
              nextChangeId := st1.nextChangeId + 1 }, true)

/-- `add_bulk_permission(op_id, user, new_u_ids, access_level)`
(lines 483-508): requires admin or creator; new rows are staged for the target
ids not already members; when the operation is a category template the loop at
lines 499-502 stages `Permission(u_id, ops.id, access_level)` where `u_id` is
the leftover loop variable of the first loop, that is the LAST element of
`new_u_ids` only — and raises `NameError` when `new_u_ids` is empty and a
non-template category operation exists. `IntegrityError` at commit rolls the
whole batch back. -/
def add_bulk_permission (st : MState) (op_id u_req : Nat)
    (new_u_ids : List Nat) (access_level : String) :
    Except String (MState × Bool) :=
  if is_admin st u_req op_id = false ∧ is_creator st u_req op_id = false then
    .ok (st, false)
  else
    let staged1 := (new_u_ids.filter (fun v =>
        decide (findPermission st v op_id = none))).map
      (fun v => Permission.mk v op_id access_level)
    match findOperation st op_id with
    | none => .error "AttributeError: NoneType has no attribute path"
    | some operation =>
      if strEndsWith operation.path GROUP_SUFFIX then
        let category := categoryOfPath operation.path
        let ops_category := st.operations.filter (fun o =>
          decide (o.category = category))
        let nonTemplate := ops_category.filter (fun o =>
          strEndsWith o.path GROUP_SUFFIX = false)
        if nonTemplate = [] then commitPerms st staged1
        else
          match new_u_ids.getLast? with
          | none => .error "NameError: name u_id is not defined"
          | some last_u =>
            let staged2 := nonTemplate.map (fun o =>
              Permission.mk last_u o.id access_level)
            commitPerms st (staged1 ++ staged2)
      else commitPerms st staged1

/-- `modify_bulk_permission(op_id, user, u_ids, new_access_level)`
(lines 510-536): requires admin or creator; updates the rows of the target ids
on the operation, and — when the operation is a category template — on every
operation of the category (with no exclusion of other templates). -/
def modify_bulk_permission (st : MState) (op_id u_req : Nat)
    (u_ids : List Nat) (new_access_level : String) :
    Except String (MState × Bool) :=
  if is_admin st u_req op_id = false ∧ is_creator st u_req op_id = false then
    .ok (st, false)
  else
    let perms1 := st.permissions.map (fun p =>
      if p.op_id = op_id ∧ p.u_id ∈ u_ids then
        { p with access_level := new_access_level } else p)
    match findOperation st op_id with
    | none => .error "AttributeError: NoneType has no attribute path"
    | some operation =>
      if strEndsWith operation.path GROUP_SUFFIX then
        let category := categoryOfPath operation.path
        let ops_category := st.operations.filter (fun o =>
          decide (o.category = category))
        let perms2 := ops_category.foldl (fun acc o => acc.map (fun p =>
          if p.op_id = o.id ∧ p.u_id ∈ u_ids then
            { p with access_level := new_access_level } else p)) perms1
        .ok ({ st with permissions := perms2 }, true)
      else .ok ({ st with permissions := perms1 }, true)

/-- The deletion a validated `delete_bulk_permission` performs
(lines 556-574): remove the rows of the target ids on the operation, and —
when the operation is a category template — on every operation of the
category (with no exclusion of other templates). -/
def deleteApply (st : MState) (op_id : Nat) (u_ids : List Nat) :
    Except String (MState × Bool) :=
  let perms1 := st.permissions.filter (fun p =>
    decide (¬(p.op_id = op_id ∧ p.u_id ∈ u_ids)))
  match findOperation st op_id with
  | none => .error "AttributeError: NoneType has no attribute path"
  | some operation =>
    if strEndsWith operation.path GROUP_SUFFIX then
      let category := categoryOfPath operation.path
      let ops_category := st.operations.filter (fun o =>
        decide (o.category = category))
      let perms2 := ops_category.foldl (fun acc o =>
        acc.filter (fun p => decide (¬(p.op_id = o.id ∧ p.u_id ∈ u_ids)))) perms1
      .ok ({ st with permissions := perms2 }, true)
    else .ok ({ st with permissions := perms1 }, true)

/-- `delete_bulk_permission(op_id, user, u_ids)` (lines 538-574): a
non-member requester is rejected; a member who is neither admin nor creator
may only remove exactly themselves; an admin or creator requester is rejected
if any target is not a member (before any deletion), and a creator may not
remove themselves. -/
def delete_bulk_permission (st : MState) (op_id u_req : Nat)
    (u_ids : List Nat) : Except String (MState × Bool) :=
  if is_member st u_req op_id = false then .ok (st, false)
  else if is_admin st u_req op_id = false ∧ is_creator st u_req op_id = false then
    if u_ids.length ≠ 1 ∨ u_req ∉ u_ids then .ok (st, false)
    else deleteApply st op_id u_ids
  else
    if u_ids.any (fun v => decide (is_member st v op_id = false)) then
      .ok (st, false)
    else if is_creator st u_req op_id = true ∧ u_req ∈ u_ids then .ok (st, false)
    else deleteApply st op_id u_ids

/-! Concrete database states used by the witnesses and counterexamples. -/

/-- A category template `texGroup` next to a plain operation `alpha` of
category `tex`; user 1 is the template's creator. -/
def stGroup : MState :=
  { operations := [⟨1, "texGroup", "d", "any", true⟩, ⟨2, "alpha", "d", "tex", true⟩],
    permissions := [⟨1, 1, "creator"⟩],
    changes := [], files := [], repos := [],
    nextOpId := 3, nextHash := 0, nextChangeId := 1 }

/-- Two templates of the same category: `texGroup` (the one operated on) and
`otherGroup` whose `category` is `tex`; user 7 is a member of both. -/
def stTwoTemplates : MState :=
  { operations := [⟨1, "texGroup", "d", "any", true⟩, ⟨2, "otherGroup", "d", "tex", true⟩],
    permissions := [⟨1, 1, "creator"⟩, ⟨7, 1, "viewer"⟩, ⟨7, 2, "viewer"⟩],
    changes := [], files := [], repos := [],
    nextOpId := 3, nextHash := 0, nextChangeId := 1 }

/-- One operation `p` with one file and one commit and no members at all. -/
def stNoMember : MState :=
  { operations := [⟨1, "p", "d", "c", true⟩],
    permissions := [],
    changes := [], files := [("p", "old")], repos := [("p", [(0, "old")])],
    nextOpId := 2, nextHash := 1, nextChangeId := 1 }

/-- One operation `p` whose only member (user 1) is a collaborator; current
content `"old"`, one commit. -/
def stOneMember : MState :=
  { operations := [⟨1, "p", "d", "c", true⟩],
    permissions := [⟨1, 1, "collaborator"⟩],
    changes := [], files := [("p", "old")], repos := [("p", [(0, "old")])],
    nextOpId := 2, nextHash := 1, nextChangeId := 1 }

/-- Requester 1 is creator of operation 2 and collaborator of operation 1;
user 5 is a viewer of operation 1 only. -/
def stImport : MState :=
  { operations := [],
    permissions := [⟨1, 2, "creator"⟩, ⟨1, 1, "collaborator"⟩, ⟨5, 1, "viewer"⟩],
    changes := [], files := [], repos := [],
    nextOpId := 3, nextHash := 0, nextChangeId := 1 }

/-- `stImport` after a successful `import_permissions` of operation 1 onto
operation 2. -/
def stImportDone : MState :=
  { stImport with permissions := stImport.permissions ++ [⟨5, 2, "viewer"⟩] }

/-- Source operation 1 with a second creator-level row (user 6), target
operation 2 created by user 2; requester 1 is admin of the target and member
of the source. -/
def stImportCreator : MState :=
  { operations := [],
    permissions := [⟨2, 2, "creator"⟩, ⟨1, 2, "admin"⟩, ⟨1, 1, "collaborator"⟩,
      ⟨6, 1, "creator"⟩],
    changes := [], files := [], repos := [],
    nextOpId := 3, nextHash := 0, nextChangeId := 1 }

/-- Operation 1 has creator 1, admin 2, collaborator 3 and viewer 4;
user 9 is not a member. -/
def stMembers : MState :=
  { operations := [⟨1, "p", "d", "c", true⟩],
    permissions := [⟨1, 1, "creator"⟩, ⟨2, 1, "admin"⟩, ⟨3, 1, "collaborator"⟩,
      ⟨4, 1, "viewer"⟩],
    changes := [], files := [("p", "x")], repos := [("p", [(0, "x")])],
    nextOpId := 2, nextHash := 1, nextChangeId := 1 }

/-- Operation 1 with admin 1, an earlier commit 0 (content `"orig"`) and the
current commit 1 (content `"cur"`); the single Change row 1 records commit 0
by user 2. -/
def stHistory : MState :=
  { operations := [⟨1, "p", "d", "c", true⟩],
    permissions := [⟨1, 1, "admin"⟩],
    changes := [⟨1, 1, 2, 0, none⟩],
    files := [("p", "cur")], repos := [("p", [(1, "cur"), (0, "orig")])],
    nextOpId := 2, nextHash := 2, nextChangeId := 2 }

/-- The empty database. -/
def stEmpty : MState :=
  { operations := [], permissions := [], changes := [], files := [], repos := [],
    nextOpId := 1, nextHash := 0, nextChangeId := 1 }

/-! Properties of the tuple ordering used to model Python `sorted`. -/

theorem strLeB_total : ∀ as bs, strLeB as bs = true ∨ strLeB bs as = true := by
  intro as
  induction as with
  | nil => intro bs; left; rfl
  | cons a as ih =>
    intro bs
    cases bs with
    | nil => right; rfl
    | cons b bs =>
      simp only [strLeB]
      by_cases hab : a = b
      · subst hab
        rw [if_pos rfl, if_pos rfl]
        exact ih bs
      · have hba : ¬b = a := fun h => hab h.symm
        rw [if_neg hab, if_neg hba]
        rcases lt_or_gt_of_ne hab with h | h
        · left; exact decide_eq_true h
        · right; exact decide_eq_true h

theorem strLeB_trans :
    ∀ as bs cs, strLeB as bs = true → strLeB bs cs = true → strLeB as cs = true := by
  intro as
  induction as with
  | nil => intro bs cs h1 h2; rfl
  | cons a as ih =>
    intro bs cs h1 h2
    cases bs with
    | nil => simp [strLeB] at h1
    | cons b bs =>
      cases cs with
      | nil => simp [strLeB] at h2
      | cons c cs =>
        simp only [strLeB] at h1 h2 ⊢
        by_cases hab : a = b
        · subst hab
          rw [if_pos rfl] at h1
          by_cases hac : a = c
          · subst hac
            rw [if_pos rfl] at h2 ⊢
            exact ih bs cs h1 h2
          · rw [if_neg hac] at h2 ⊢
            exact h2
        · rw [if_neg hab] at h1
          have h1' : a < b := of_decide_eq_true h1
          by_cases hbc : b = c
          · subst hbc
            rw [if_neg hab]
            exact h1
          · rw [if_neg hbc] at h2
            have h2' : b < c := of_decide_eq_true h2
            have hac : a < c := lt_trans h1' h2'
            rw [if_neg (ne_of_lt hac)]
            exact decide_eq_true hac

theorem strLeB_antisymm :
    ∀ as bs, strLeB as bs = true → strLeB bs as = true → as = bs := by
  intro as
  induction as with
  | nil =>
    intro bs h1 h2
    cases bs with
    | nil => rfl
    | cons b bs => simp [strLeB] at h2
  | cons a as ih =>
    intro bs h1 h2
    cases bs with
    | nil => simp [strLeB] at h1
    | cons b bs =>
      simp only [strLeB] at h1 h2
      by_cases hab : a = b
      · subst hab
        rw [if_pos rfl] at h1 h2
        rw [ih bs h1 h2]
      · have hba : ¬b = a := fun h => hab h.symm
        rw [if_neg hab] at h1
        rw [if_neg hba] at h2
        exact absurd (of_decide_eq_true h1) (lt_asymm (of_decide_eq_true h2))

instance : IsTotal (Nat × String) pairLe where
  total a b := by
    unfold pairLe pairLeB
    by_cases h : a.1 = b.1
    · rw [if_pos h, if_pos h.symm]
      exact strLeB_total _ _
    · have h' : ¬b.1 = a.1 := fun e => h e.symm
      rw [if_neg h, if_neg h']
      rcases Nat.lt_or_ge a.1 b.1 with hl | hg
      · left; exact decide_eq_true hl
      · right; exact decide_eq_true (Nat.lt_of_le_of_ne hg h')

instance : IsTrans (Nat × String) pairLe where
  trans a b c h1 h2 := by
    unfold pairLe pairLeB at h1 h2 ⊢
    by_cases hab : a.1 = b.1 <;> by_cases hbc : b.1 = c.1
    · rw [if_pos hab] at h1
      rw [if_pos hbc] at h2
      rw [if_pos (hab.trans hbc)]
      exact strLeB_trans _ _ _ h1 h2
    · rw [if_pos hab] at h1
      rw [if_neg hbc] at h2
      rw [if_neg (fun e => hbc (hab ▸ e)), hab]
      exact h2
    · rw [if_neg hab] at h1
      rw [if_pos hbc] at h2
      rw [if_neg (fun e => hab (e.trans hbc.symm)), ← hbc]
      exact h1
    · rw [if_neg hab] at h1
      rw [if_neg hbc] at h2
      have h1' : a.1 < b.1 := of_decide_eq_true h1
      have h2' : b.1 < c.1 := of_decide_eq_true h2
      rw [if_neg (ne_of_lt (lt_trans h1' h2'))]
      exact decide_eq_true (lt_trans h1' h2')

instance : IsAntisymm (Nat × String) pairLe where
  antisymm a b h1 h2 := by
    unfold pairLe pairLeB at h1 h2
    by_cases hab : a.1 = b.1
    · rw [if_pos hab] at h1
      rw [if_pos hab.symm] at h2
      have hdata : a.2.data = b.2.data := strLeB_antisymm _ _ h1 h2
      have h2eq : a.2 = b.2 := by
        cases a2 : a.2
        cases b2 : b.2
        rw [a2, b2] at hdata
        simp only at hdata
        rw [hdata]
      exact Prod.ext hab h2eq
    · have hba : ¬b.1 = a.1 := fun e => hab e.symm
      rw [if_neg hab] at h1
      rw [if_neg hba] at h2
      exact absurd (of_decide_eq_true h1) (lt_asymm (of_decide_eq_true h2))

theorem sortPairs_perm (l : List (Nat × String)) : List.Perm (sortPairs l) l :=
  List.perm_insertionSort pairLe l

theorem sortPairs_sorted (l : List (Nat × String)) : List.Sorted pairLe (sortPairs l) :=
  List.sorted_insertionSort pairLe l

theorem sortPairs_eq_of_perm {l₁ l₂ : List (Nat × String)} (h : List.Perm l₁ l₂) :
    sortPairs l₁ = sortPairs l₂ :=
  List.eq_of_perm_of_sorted
    ((sortPairs_perm l₁).trans (h.trans (sortPairs_perm l₂).symm))
    (sortPairs_sorted l₁) (sortPairs_sorted l₂)

/-! Generic helper lemmas about the list operations the queries are
modelled with. -/

theorem find?_filter_eq {α} (p q : α → Bool) (l : List α)
    (h : ∀ x, p x = true → q x = true) : (l.filter q).find? p = l.find? p := by
  induction l with
  | nil => rfl
  | cons a l ih =>
    by_cases hq : q a = true
    · rw [List.filter_cons_of_pos hq]
      by_cases hp : p a = true
      · rw [List.find?_cons_of_pos _ hp, List.find?_cons_of_pos _ hp]
      · rw [List.find?_cons_of_neg _ (by simp [hp]),
          List.find?_cons_of_neg _ (by simp [hp])]
        exact ih
    · rw [List.filter_cons_of_neg (by simp [hq])]
      rw [ih, List.find?_cons_of_neg _ (by
        intro hp
        exact hq (h a hp))]

theorem find?_append_of_none {α} (p : α → Bool) (l₁ l₂ : List α)
    (h : ∀ x ∈ l₂, p x = false) : (l₁ ++ l₂).find? p = l₁.find? p := by
  rw [List.find?_append]
  have h2 : l₂.find? p = none := List.find?_eq_none.mpr (fun x hx => by simp [h x hx])
  rw [h2]
  cases l₁.find? p <;> rfl

theorem find?_append_left_none {α} (p : α → Bool) (l₁ l₂ : List α)
    (h : ∀ x ∈ l₁, p x = false) : (l₁ ++ l₂).find? p = l₂.find? p := by
  rw [List.find?_append]
  have h1 : l₁.find? p = none := List.find?_eq_none.mpr (fun x hx => by simp [h x hx])
  rw [h1]
  rfl

theorem filter_filter_eq {α} (p q : α → Bool) (l : List α)
    (h : ∀ x, p x = true → q x = true) : (l.filter q).filter p = l.filter p := by
  rw [List.filter_filter]
  apply List.filter_congr
  intro x hx
  by_cases hp : p x = true
  · rw [hp, h x hp]; rfl
  · rw [Bool.eq_false_iff.mpr hp]
    rfl

theorem map_filter_comp {α β} (f : α → β) (p : β → Bool) (l : List α) :
    (l.filter (fun x => p (f x))).map f = (l.map f).filter p := by
  induction l with
  | nil => rfl
  | cons a l ih => by_cases h : p (f a) <;> simp [h, ih]

theorem map_eq_self {α} (l : List α) (f : α → α) (h : ∀ x ∈ l, f x = x) :
    l.map f = l := by
  induction l with
  | nil => rfl
  | cons a l ih =>
    rw [List.map_cons, h a (List.mem_cons_self a l),
      ih (fun x hx => h x (List.mem_cons_of_mem a hx))]

theorem find?_map_setFile :
    ∀ (files : List (String × String)) (path text : String),
    files.any (fun e => decide (e.1 = path)) = true →
    (files.map (fun e => if e.1 = path then (path, text) else e)).find?
      (fun e => decide (e.1 = path)) = some (path, text) := by
  intro files
  induction files with
  | nil => intro path text h; simp at h
  | cons e es ih =>
    intro path text h
    by_cases he : e.1 = path
    · rw [List.map_cons, if_pos he]
      exact List.find?_cons_of_pos _ (by simp)
    · rw [List.map_cons, if_neg he]
      rw [List.find?_cons_of_neg _ (by simp [he])]
      apply ih
      rcases List.any_eq_true.mp h with ⟨x, hx, hxp⟩
      rcases List.mem_cons.mp hx with rfl | hx'
      · exact absurd (of_decide_eq_true hxp) he
      · exact List.any_eq_true.mpr ⟨x, hx', hxp⟩

theorem find?_setFile (files : List (String × String)) (path text : String) :
    (setFile files path text).find? (fun e => decide (e.1 = path)) =
      some (path, text) := by
  unfold setFile
  by_cases hany : files.any (fun e => decide (e.1 = path)) = true
  · rw [if_pos hany]
    exact find?_map_setFile files path text hany
  · rw [if_neg hany]
    rw [find?_append_left_none]
    · exact List.find?_cons_of_pos _ (by simp)
    · intro x hx
      by_cases hxp : x.1 = path
      · exact absurd (List.any_eq_true.mpr ⟨x, hx, decide_eq_true hxp⟩) hany
      · simp [hxp]

/-! Helper lemmas about `save_file`, `get_file` and the authorization
predicates. -/

theorem findPermission_isSome_of_auth {st : MState} {u op : Nat}
    (h : is_admin st u op = true ∨ is_creator st u op = true ∨
      is_collaborator st u op = true) :
    (findPermission st u op).isSome = true := by
  rcases hfp : findPermission st u op with _ | p
  · rcases h with h | h | h
    · unfold is_admin at h; rw [hfp] at h; simp at h
    · unfold is_creator at h; rw [hfp] at h; simp at h
    · unfold is_collaborator at h; rw [hfp] at h; simp at h
  · rfl

theorem save_file_noop {st : MState} {op_id u : Nat} {content : String}
    {o : Operation} {old : String}
    (hop : findOperation st op_id = some o)
    (hfile : lookupFile st o.path = some old)
    (heq : splitlines old = splitlines content) :
    save_file st op_id content u =
      .ok ({ st with files := setFile st.files o.path content }, false) := by
  unfold save_file
  rw [hop]
  simp only
  rw [hfile]
  simp only
  rw [decide_eq_true heq]
  rfl

theorem save_file_commits {st : MState} {op_id u : Nat} {content : String}
    {o : Operation} {old : String} {commits : List (Nat × String)}
    (hop : findOperation st op_id = some o)
    (hfile : lookupFile st o.path = some old)
    (hrepo : lookupRepo st o.path = some commits)
    (hdiff : splitlines old ≠ splitlines content) :
    save_file st op_id content u =
      .ok ({ st with
        files := setFile st.files o.path content,
        repos := setRepo st.repos o.path ((st.nextHash, content) :: commits),
        changes := st.changes ++ [⟨st.nextChangeId, op_id, u, st.nextHash, none⟩],
        nextHash := st.nextHash + 1,
        nextChangeId := st.nextChangeId + 1 }, true) := by
  unfold save_file
  rw [hop]
  simp only
  rw [hfile]
  simp only
  rw [decide_eq_false hdiff]
  have hrepo1 : lookupRepo { st with files := setFile st.files o.path content }
      o.path = some commits := hrepo
  rw [if_neg (by simp), hrepo1]

/-! The claim theorems. -/

/-- Claim C1 (code evidence for the deviation): on the category template
`texGroup` of `stGroup`, a bulk add of users 5 and 6 succeeds but mirrors only
user 6 — the last element of the target list, via the leaked loop variable of
lines 488-501 — onto the category operation `alpha` (user 5 gets no row on
operation 2); and on `stTwoTemplates` a bulk modify of user 7 on the template
`texGroup` also rewrites user 7's row on `otherGroup`, an operation of the
same category whose path also ends with the Group suffix. -/
theorem add_bulk_group_propagation_bug :
    (add_bulk_permission stGroup 1 1 [5, 6] "collaborator" =
      .ok ({ stGroup with permissions :=
        [⟨1, 1, "creator"⟩, ⟨5, 1, "collaborator"⟩, ⟨6, 1, "collaborator"⟩,
         ⟨6, 2, "collaborator"⟩] }, true)) ∧
    (modify_bulk_permission stTwoTemplates 1 1 [7] "admin" =
      .ok ({ stTwoTemplates with permissions :=
        [⟨1, 1, "creator"⟩, ⟨7, 1, "admin"⟩, ⟨7, 2, "admin"⟩] }, true)) :=
  ⟨by decide, by decide⟩

/-- Claim C7 (code evidence for the deviation): no Change row has id 1 in
`stMembers`, and both `undo_changes` and `get_change_content` dereference the
`None` result of the change query before any `None` check, raising
`AttributeError` instead of returning False. -/
theorem missing_change_raises :
    findChange stMembers 1 = none ∧
    undo_changes stMembers 1 1 =
      .error "AttributeError: NoneType has no attribute op_id" ∧
    get_change_content stMembers 1 1 =
      .error "AttributeError: NoneType has no attribute op_id" :=
  ⟨by decide, by decide, by decide⟩

/-- Claim C10: for an admin, creator or collaborator requester,
`set_version_name` returns True even when no Change row has the given change
id; the update then matches zero rows, the state is unchanged, and no
not-found failure is signalled. -/
theorem set_version_name_reports_true (st : MState) (ch_id op_id u : Nat)
    (name : Option String)
    (hauth : is_admin st u op_id = true ∨ is_creator st u op_id = true ∨
      is_collaborator st u op_id = true) :
    (set_version_name st ch_id op_id u name).2 = true ∧
    (findChange st ch_id = none →
      set_version_name st ch_id op_id u name = (st, true)) := by
  have hneg : ¬(is_admin st u op_id = false ∧ is_creator st u op_id = false ∧
      is_collaborator st u op_id = false) := by
    rcases hauth with h | h | h <;> intro hc <;> rcases hc with ⟨h1, h2, h3⟩ <;> simp_all
  unfold set_version_name
  rw [if_neg hneg]
  refine ⟨rfl, fun hnone => ?_⟩
  have hmap : st.changes.map (fun c =>
      if c.id = ch_id then { c with version_name := name } else c) = st.changes := by
    apply map_eq_self
    intro c hc
    have : ¬(decide (c.id = ch_id) = true) := by
      intro hdec
      have := List.find?_eq_none.mp hnone c hc
      exact this hdec
    rw [if_neg (fun e => this (decide_eq_true e))]
  rw [hmap]

/-- Claim C10 witness: user 3 is a collaborator of operation 1 of
`stMembers` and no Change row has id 99. -/
theorem set_version_name_reports_true_witness :
    (set_version_name stMembers 99 1 3 (some "v")).2 = true ∧
    (findChange stMembers 99 = none →
      set_version_name stMembers 99 1 3 (some "v") = (stMembers, true)) :=
  set_version_name_reports_true stMembers 99 1 3 (some "v")
    (Or.inr (Or.inr (by decide)))

/-- Claim C2 (counterexample): user 9 holds no Permission row on operation 1
of `stNoMember`, yet `save_file` returns True, overwrites the content, commits
and records a Change row for user 9 — it neither returns False nor leaves the
operation's file content, history and Change rows unchanged. -/
theorem save_file_nonmember_cex :
    findPermission stNoMember 9 1 = none ∧
    save_file stNoMember 1 "new" 9 =
      .ok ({ stNoMember with
        files := [("p", "new")], repos := [("p", [(1, "new"), (0, "old")])],
        changes := [⟨1, 1, 9, 1, none⟩], nextHash := 2, nextChangeId := 2 }, true) :=
  ⟨by decide, by decide⟩

/-- Claim C2 (amended): `save_file` performs no membership check at all — a
user who holds no Permission row on an existing operation saves exactly like a
member: with content whose lines differ from the current content the call
returns True, overwrites the file, commits, and records a Change row
attributed to that user. -/
theorem save_file_no_membership_check (st : MState) (op_id u : Nat)
    (content : String) (o : Operation) (old : String)
    (commits : List (Nat × String))
    (hperm : findPermission st u op_id = none)
    (hop : findOperation st op_id = some o)
    (hfile : lookupFile st o.path = some old)
    (hrepo : lookupRepo st o.path = some commits)
    (hdiff : splitlines old ≠ splitlines content) :
    save_file st op_id content u =
      .ok ({ st with
        files := setFile st.files o.path content,
        repos := setRepo st.repos o.path ((st.nextHash, content) :: commits),
        changes := st.changes ++ [⟨st.nextChangeId, op_id, u, st.nextHash, none⟩],
        nextHash := st.nextHash + 1,
        nextChangeId := st.nextChangeId + 1 }, true) :=
  save_file_commits hop hfile hrepo hdiff

/-- Claim C2 witness: the amended statement applied to the non-member user 9
of `stNoMember`. -/
theorem save_file_no_membership_check_witness :
    save_file stNoMember 1 "new" 9 =
      .ok ({ stNoMember with
        files := setFile stNoMember.files "p" "new",
        repos := setRepo stNoMember.repos "p" [(1, "new"), (0, "old")],
        changes := stNoMember.changes ++ [⟨1, 1, 9, 1, none⟩],
        nextHash := 2, nextChangeId := 2 }, true) :=
  save_file_no_membership_check stNoMember 1 9 "new" ⟨1, "p", "d", "c", true⟩
    "old" [(0, "old")] (by decide) (by decide) (by decide) (by decide) (by decide)

/-- Claim C3 (counterexample): the current content of operation 1 of
`stOneMember` is `"old"`; saving the different content `"old\n"` (same lines,
different string) returns False and records neither a commit nor a Change row
— refuting that saving any content different from the current one returns
True with exactly one new Change row. The raw file is still overwritten. -/
theorem save_file_string_diff_cex :
    ("old\n" : String) ≠ "old" ∧
    save_file stOneMember 1 "old\n" 1 =
      .ok ({ stOneMember with files := [("p", "old\n")] }, false) :=
  ⟨by decide, by decide⟩

/-- Claim C3 (amended): for an existing operation, saving content whose
`splitlines` equal those of the current content (in particular, identical
content) returns False and records no commit and no Change row (the raw bytes
are still written); saving content whose lines differ returns True and records
exactly one Change row linking the fresh commit to the acting user. -/
theorem save_file_line_semantics (st : MState) (op_id u : Nat)
    (content : String) (o : Operation) (old : String)
    (commits : List (Nat × String))
    (hop : findOperation st op_id = some o)
    (hfile : lookupFile st o.path = some old)
    (hrepo : lookupRepo st o.path = some commits) :
    (splitlines old = splitlines content →
      save_file st op_id content u =
        .ok ({ st with files := setFile st.files o.path content }, false)) ∧
    (splitlines old ≠ splitlines content →
      save_file st op_id content u =
        .ok ({ st with
          files := setFile st.files o.path content,
          repos := setRepo st.repos o.path ((st.nextHash, content) :: commits),
          changes := st.changes ++ [⟨st.nextChangeId, op_id, u, st.nextHash, none⟩],
          nextHash := st.nextHash + 1,
          nextChangeId := st.nextChangeId + 1 }, true)) :=
  ⟨fun heq => save_file_noop hop hfile heq,
   fun hne => save_file_commits hop hfile hrepo hne⟩

/-- A requester who is admin or creator is in particular a member. -/
theorem is_member_of_auth {st : MState} {u op : Nat}
    (h : is_admin st u op = true ∨ is_creator st u op = true) :
    is_member st u op = true := by
  unfold is_member
  exact findPermission_isSome_of_auth (h.elim (fun x => Or.inl x)
    (fun x => Or.inr (Or.inl x)))

/-- Once `delete_bulk_permission` has validated the requester and the target
list, the deletion itself always reports success. -/
theorem deleteApply_ok {st : MState} {op : Nat} {u_ids : List Nat}
    {o : Operation} (hop : findOperation st op = some o) :
    ∃ st', deleteApply st op u_ids = .ok (st', true) := by
  simp only [deleteApply, hop]
  split
  · exact ⟨_, rfl⟩
  · exact ⟨_, rfl⟩

/-- Claim C5: `delete_bulk_permission` requires the requester to be admin or
creator, except that a plain member may remove exactly themselves; a creator
whose own id is among the targets is refused; and an admin or creator
supplying any non-member target is refused before any row is removed (no
partial mutation). The two success cases are included: a plain member's exact
self-leave, and an admin/creator batch of members that does not self-remove a
creator. -/
theorem delete_bulk_permission_auth (st : MState) (op u : Nat)
    (u_ids : List Nat) :
    (is_member st u op = false →
      delete_bulk_permission st op u u_ids = .ok (st, false)) ∧
    (is_member st u op = true → is_admin st u op = false →
      is_creator st u op = false → ¬(u_ids.length = 1 ∧ u ∈ u_ids) →
      delete_bulk_permission st op u u_ids = .ok (st, false)) ∧
    (is_member st u op = true → is_admin st u op = false →
      is_creator st u op = false → u_ids.length = 1 → u ∈ u_ids →
      ∀ o, findOperation st op = some o →
      ∃ st', delete_bulk_permission st op u u_ids = .ok (st', true)) ∧
    ((is_admin st u op = true ∨ is_creator st u op = true) →
      (∃ v ∈ u_ids, is_member st v op = false) →
      delete_bulk_permission st op u u_ids = .ok (st, false)) ∧
    (is_creator st u op = true → u ∈ u_ids →
      delete_bulk_permission st op u u_ids = .ok (st, false)) ∧
    ((is_admin st u op = true ∨ is_creator st u op = true) →
      (∀ v ∈ u_ids, is_member st v op = true) →
      ¬(is_creator st u op = true ∧ u ∈ u_ids) →
      ∀ o, findOperation st op = some o →
      ∃ st', delete_bulk_permission st op u u_ids = .ok (st', true)) := by
  refine ⟨?_, ?_, ?_, ?_, ?_, ?_⟩
  · intro h
    unfold delete_bulk_permission
    rw [if_pos h]
  · intro hm ha hc hnot
    unfold delete_bulk_permission
    rw [if_neg (by simp [hm]), if_pos ⟨ha, hc⟩, if_pos (by tauto)]
  · intro hm ha hc hlen hmem o hop
    unfold delete_bulk_permission
    rw [if_neg (by simp [hm]), if_pos ⟨ha, hc⟩, if_neg (by simp [hlen, hmem])]
    exact deleteApply_ok hop
  · intro hauth hex
    rcases hex with ⟨v, hv, hvnm⟩
    unfold delete_bulk_permission
    rw [if_neg (by simp [is_member_of_auth hauth]),
      if_neg (by rcases hauth with h | h <;> simp [h]),
      if_pos (List.any_eq_true.mpr ⟨v, hv, by simp [hvnm]⟩)]
  · intro hcr hin
    unfold delete_bulk_permission
    rw [if_neg (by simp [is_member_of_auth (Or.inr hcr)]),
      if_neg (by simp [hcr])]
    by_cases hany : u_ids.any (fun v => decide (is_member st v op = false)) = true
    · rw [if_pos hany]
    · rw [if_neg hany, if_pos ⟨hcr, hin⟩]
  · intro hauth hall hnotcr o hop
    unfold delete_bulk_permission
    have hany : ¬(u_ids.any (fun v => decide (is_member st v op = false)) = true) := by
      intro h
      rcases List.any_eq_true.mp h with ⟨v, hv, hp⟩
      have := of_decide_eq_true hp
      rw [hall v hv] at this
      exact absurd this (by simp)
    rw [if_neg (by simp [is_member_of_auth hauth]),
      if_neg (by rcases hauth with h | h <;> simp [h]),
      if_neg hany, if_neg hnotcr]
    exact deleteApply_ok hop

/-- Claim C5 witness: every hypothesis of every conjunct discharged on
`stMembers` (creator 1, admin 2, collaborator 3, viewer 4, non-member 9):
a non-member batch is refused; a collaborator removing someone else is
refused; a collaborator's self-leave succeeds; an admin batch containing the
non-member 9 is refused; the creator self-removing is refused; and an admin
batch of members succeeds. -/
theorem delete_bulk_permission_auth_witness :
    delete_bulk_permission stMembers 1 9 [3] = .ok (stMembers, false) ∧
    delete_bulk_permission stMembers 1 3 [4] = .ok (stMembers, false) ∧
    (∃ st', delete_bulk_permission stMembers 1 3 [3] = .ok (st', true)) ∧
    delete_bulk_permission stMembers 1 2 [3, 9] = .ok (stMembers, false) ∧
    delete_bulk_permission stMembers 1 1 [1, 3] = .ok (stMembers, false) ∧
    (∃ st', delete_bulk_permission stMembers 1 2 [3, 4] = .ok (st', true)) :=
  ⟨(delete_bulk_permission_auth stMembers 1 9 [3]).1 (by decide),
   (delete_bulk_permission_auth stMembers 1 3 [4]).2.1 (by decide) (by decide)
     (by decide) (by decide),
   (delete_bulk_permission_auth stMembers 1 3 [3]).2.2.1 (by decide) (by decide)
     (by decide) (by decide) (by decide) ⟨1, "p", "d", "c", true⟩ (by decide),
   (delete_bulk_permission_auth stMembers 1 2 [3, 9]).2.2.2.1 (Or.inl (by decide))
     ⟨9, by decide, by decide⟩,
   (delete_bulk_permission_auth stMembers 1 1 [1, 3]).2.2.2.2.1 (by decide)
     (by decide),
   (delete_bulk_permission_auth stMembers 1 2 [3, 4]).2.2.2.2.2 (Or.inl (by decide))
     (by decide) (by decide) ⟨1, "p", "d", "c", true⟩ (by decide)⟩

/-- Membership plus a matching lookup makes `get_file` return the content. -/
theorem get_file_of_facts (st : MState) (op u : Nat) (text : String)
    (hperm : (findPermission st u op).isSome = true)
    (hop : ∃ o, findOperation st op = some o ∧ lookupFile st o.path = some text) :
    get_file st op u = .ok (some text) := by
  unfold get_file
  rcases hfp : findPermission st u op with _ | p
  · rw [hfp] at hperm; simp at hperm
  · rcases hop with ⟨o, ho, hf⟩
    simp only [ho, hf]

/-- Claim C8: for an existing Change and an admin, creator or collaborator
requester, with the change's commit present in the operation's repository, a
successful `undo_changes` makes `get_file` return the content recorded at that
commit and appends exactly one Change row attributed to the acting user, so
the history grows by exactly one. -/
theorem undo_changes_restores (st : MState) (ch_id u : Nat) (ch : Change)
    (o : Operation) (commits : List (Nat × String)) (c : String)
    (hch : findChange st ch_id = some ch)
    (hauth : is_admin st u ch.op_id = true ∨ is_creator st u ch.op_id = true ∨
      is_collaborator st u ch.op_id = true)
    (hop : findOperation st ch.op_id = some o)
    (hrepo : lookupRepo st o.path = some commits)
    (hshow : repoShow commits ch.commit_hash = some c) :
    ∃ st', undo_changes st ch_id u = .ok (st', true) ∧
      get_file st' ch.op_id u = .ok (some c) ∧
      st'.changes = st.changes ++ [⟨st.nextChangeId, ch.op_id, u, st.nextHash, none⟩] ∧
      st'.changes.length = st.changes.length + 1 := by
  have hneg : ¬(is_admin st u ch.op_id = false ∧ is_creator st u ch.op_id = false ∧
      is_collaborator st u ch.op_id = false) := by
    rcases hauth with h | h | h <;> intro hcon <;> rcases hcon with ⟨h1, h2, h3⟩ <;>
      simp_all
  refine ⟨{ st with
      files := setFile st.files o.path c,
      repos := setRepo st.repos o.path ((st.nextHash, c) :: commits),
      changes := st.changes ++ [⟨st.nextChangeId, ch.op_id, u, st.nextHash, none⟩],
      nextHash := st.nextHash + 1,
      nextChangeId := st.nextChangeId + 1 }, ?_, ?_, rfl, by simp⟩
  · simp only [undo_changes, hch]
    rw [if_neg hneg]
    simp only [hop, hrepo, hshow]
  · apply get_file_of_facts
    · exact findPermission_isSome_of_auth hauth
    · refine ⟨o, hop, ?_⟩
      unfold lookupFile
      show ((setFile st.files o.path c).find? _).map _ = some c
      rw [find?_setFile]
      rfl

/-- Claim C8 witness: user 1 (admin) undoes change 1 of `stHistory`, which
records commit 0 with content `"orig"`; the restored content is returned by
`get_file` and one Change row by user 1 is appended. -/
theorem undo_changes_restores_witness :
    ∃ st', undo_changes stHistory 1 1 = .ok (st', true) ∧
      get_file st' 1 1 = .ok (some "orig") ∧
      st'.changes = stHistory.changes ++ [⟨2, 1, 1, 2, none⟩] ∧
      st'.changes.length = stHistory.changes.length + 1 :=
  undo_changes_restores stHistory 1 1 ⟨1, 1, 2, 0, none⟩ ⟨1, "p", "d", "c", true⟩
    [(1, "cur"), (0, "orig")] "orig" (by decide) (Or.inl (by decide))
    (by decide) (by decide) (by decide)

/-- Claim C3 witness: both halves of the amended statement applied to
operation 1 of `stOneMember`, once with the identical content `"old"` and
once with the line-different content `"new"`. -/
theorem save_file_line_semantics_witness :
    save_file stOneMember 1 "old" 1 =
      .ok ({ stOneMember with files := setFile stOneMember.files "p" "old" }, false) ∧
    save_file stOneMember 1 "new" 1 =
      .ok ({ stOneMember with
        files := setFile stOneMember.files "p" "new",
        repos := setRepo stOneMember.repos "p" [(1, "new"), (0, "old")],
        changes := stOneMember.changes ++ [⟨1, 1, 1, 1, none⟩],
        nextHash := 2, nextChangeId := 2 }, true) :=
  ⟨(save_file_line_semantics stOneMember 1 1 "old" ⟨1, "p", "d", "c", true⟩
      "old" [(0, "old")] (by decide) (by decide) (by decide)).1 (by decide),
   (save_file_line_semantics stOneMember 1 1 "new" ⟨1, "p", "d", "c", true⟩
      "old" [(0, "old")] (by decide) (by decide) (by decide)).2 (by decide)⟩

/-! Structural lemmas about `import_permissions`, shared by the claims about
permission import and operation creation. -/

theorem mem_foldl_addStep {current : Nat} {is_perm : List (Nat × String)} :
    ∀ (l : List (Nat × String)) (acc : List Permission) (x : Permission),
    x ∈ acc → x ∈ l.foldl (addStep current is_perm) acc := by
  intro l
  induction l with
  | nil => intro acc x hx; exact hx
  | cons q l ih =>
    intro acc x hx
    rw [List.foldl_cons]
    apply ih
    unfold addStep
    split
    · exact List.mem_append_left _ hx
    · exact hx

/-- Whatever branch `import_permissions` takes (short of the creator-lookup
`AttributeError`, excluded by the hypothesis), it returns `.ok`, touches only
the permission table, and keeps every permission row of the requester. -/
theorem import_permissions_frame (st : MState) (i c u : Nat)
    (hcr : ∃ p ∈ st.permissions, p.op_id = c ∧ p.access_level = "creator") :
    ∃ st' r, import_permissions st i c u = .ok (st', r) ∧
      st'.operations = st.operations ∧ st'.changes = st.changes ∧
      st'.files = st.files ∧ st'.repos = st.repos ∧
      st'.nextOpId = st.nextOpId ∧ st'.nextHash = st.nextHash ∧
      st'.nextChangeId = st.nextChangeId ∧
      (∀ p ∈ st.permissions, p.u_id = u → p ∈ st'.permissions) := by
  simp only [import_permissions]
  by_cases h1 : is_creator st u c = false ∧ is_admin st u c = false
  · rw [if_pos h1]
    exact ⟨st, _, rfl, rfl, rfl, rfl, rfl, rfl, rfl, rfl, fun p hp _ => hp⟩
  · rw [if_neg h1]
    rcases hfp : findPermission st u i with _ | p0 <;> simp only [hfp]
    · exact ⟨st, _, rfl, rfl, rfl, rfl, rfl, rfl, rfl, rfl, fun p hp _ => hp⟩
    · rcases hcp : findCreatorPerm st c with _ | cp <;> simp only [hcp]
      · exfalso
        rcases hcr with ⟨p, hp, hpo, hpl⟩
        have := List.find?_eq_none.mp hcp p hp
        simp [hpo, hpl] at this
      · by_cases hsorted : sortPairs (newPermOf (importPerms st i u cp.u_id)) =
            sortPairs (isPermOf (existingPerms st c u))
        · rw [if_pos hsorted]
          exact ⟨st, _, rfl, rfl, rfl, rfl, rfl, rfl, rfl, rfl, fun p hp _ => hp⟩
        · rw [if_neg hsorted]
          by_cases hdup : dupKey ((newPermOf (importPerms st i u cp.u_id)).foldl
              (addStep c (isPermOf (existingPerms st c u)))
              (afterDeletePerms st c u (newPermOf (importPerms st i u cp.u_id)))) = true
          · rw [if_pos hdup]
            exact ⟨st, _, rfl, rfl, rfl, rfl, rfl, rfl, rfl, rfl, fun p hp _ => hp⟩
          · rw [if_neg hdup]
            refine ⟨_, _, rfl, rfl, rfl, rfl, rfl, rfl, rfl, rfl, ?_⟩
            intro p hp hpu
            apply mem_foldl_addStep
            unfold afterDeletePerms
            refine List.mem_filter.mpr ⟨hp, ?_⟩
            rw [decide_eq_true_eq]
            intro hcon
            exact hcon.2.1 hpu

/-- Claim C9: after a successful `create_operation` with a valid fresh path,
`get_file` for the creating user returns exactly the supplied content, or
exactly the stub document when none was supplied. The hypotheses state
freshness: the path is filesystem-safe, no operation and no directory uses it,
and the autoincremented operation id is unused. -/
theorem create_operation_get_file (st : MState) (path description : String)
    (u : Nat) (content : Option String) (category : String) (active : Bool)
    (hbad : pathBad path = false)
    (hunique : findOperationByPath st path = none)
    (hfile : lookupFile st path = none)
    (hid : ∀ o ∈ st.operations, o.id ≠ st.nextOpId) :
    ∃ st', create_operation st path description u content category active =
        .ok (st', true) ∧
      get_file st' st.nextOpId u = .ok (some (content.getD STUB_CODE)) := by
  simp only [create_operation, hbad, hunique]
  rw [if_neg (by simp), if_neg (by simp)]
  have hcr1 : ∃ p ∈ st.permissions ++ [(⟨u, st.nextOpId, "creator"⟩ : Permission)],
      p.op_id = st.nextOpId ∧ p.access_level = "creator" :=
    ⟨⟨u, st.nextOpId, "creator"⟩,
      List.mem_append_right _ (List.mem_singleton.mpr rfl), rfl, rfl⟩
  set st1 : MState := { st with
    operations := st.operations ++ [⟨st.nextOpId, path, description, category, active⟩],
    permissions := st.permissions ++ [⟨u, st.nextOpId, "creator"⟩],
    nextOpId := st.nextOpId + 1 } with hst1
  have hmain : ∀ st2 : MState,
      st2.operations = st1.operations → st2.files = st.files →
      ((⟨u, st.nextOpId, "creator"⟩ : Permission) ∈ st2.permissions) →
      ((lookupFile st2 path).isSome = true → False) ∧
      ∀ text : String,
        get_file { st2 with
          files := setFile st2.files path text,
          repos := setRepo st2.repos path
            (((st2.nextHash, text)) :: (lookupRepo { st2 with
              files := setFile st2.files path text } path).getD []),
          nextHash := st2.nextHash + 1 } st.nextOpId u = .ok (some text) := by
    intro st2 hops hfiles hpmem
    constructor
    · intro hsome
      have : lookupFile st2 path = none := by
        unfold lookupFile
        rw [hfiles]
        exact hfile
      rw [this] at hsome
      simp at hsome
    · intro text
      apply get_file_of_facts
      · apply List.find?_isSome.mpr
        exact ⟨⟨u, st.nextOpId, "creator"⟩, hpmem, by simp⟩
      · refine ⟨⟨st.nextOpId, path, description, category, active⟩, ?_, ?_⟩
        · show (st2.operations.find? _) = _
          rw [hops, hst1]
          rw [find?_append_left_none]
          · exact List.find?_cons_of_pos _ (by simp)
          · intro o ho
            simp only [decide_eq_false_iff_not]
            exact hid o ho
        · show ((setFile st2.files path text).find? _).map _ = some text
          rw [find?_setFile]
          rfl
  by_cases hgrp : strEndsWith path GROUP_SUFFIX = false
  · rw [if_pos hgrp]
    rcases htpl : findOperationByPath st1 (category ++ GROUP_SUFFIX) with _ | iop <;>
      simp only [htpl]
    · rcases hmain st1 rfl rfl (List.mem_append_right _ (List.mem_singleton.mpr rfl))
        with ⟨hnof, hget⟩
      rw [if_neg (fun hs => hnof hs)]
      cases content with
      | none => exact ⟨_, rfl, hget STUB_CODE⟩
      | some ctext => exact ⟨_, rfl, hget ctext⟩
    · rcases import_permissions_frame st1 iop.id st.nextOpId u hcr1 with
        ⟨st2, r, heq, hops, hch, hfiles, hrepos, hoid, hhash, hcid, hperm⟩
      rw [heq]
      rcases hmain st2 hops (by rw [hfiles]) (hperm _
        (List.mem_append_right _ (List.mem_singleton.mpr rfl)) rfl)
        with ⟨hnof, hget⟩
      dsimp only
      rw [if_neg (fun hs => hnof hs)]
      cases content with
      | none => exact ⟨_, rfl, hget STUB_CODE⟩
      | some ctext => exact ⟨_, rfl, hget ctext⟩
  · rw [if_neg hgrp]
    rcases hmain st1 rfl rfl (List.mem_append_right _ (List.mem_singleton.mpr rfl))
      with ⟨hnof, hget⟩
    dsimp only
    rw [if_neg (fun hs => hnof hs)]
    cases content with
    | none => exact ⟨_, rfl, hget STUB_CODE⟩
    | some ctext => exact ⟨_, rfl, hget ctext⟩

/-- Claim C9 witness: creating `alpha` in the empty database, once without
content (the stub is returned) and once with content `"xml"`. -/
theorem create_operation_get_file_witness :
    (∃ st', create_operation stEmpty "alpha" "d" 7 none "tex" true =
        .ok (st', true) ∧
      get_file st' stEmpty.nextOpId 7 = .ok (some ((none : Option String).getD STUB_CODE))) ∧
    (∃ st', create_operation stEmpty "alpha" "d" 7 (some "xml") "tex" true =
        .ok (st', true) ∧
      get_file st' stEmpty.nextOpId 7 = .ok (some ((some "xml").getD STUB_CODE))) :=
  ⟨create_operation_get_file stEmpty "alpha" "d" 7 none "tex" true
      (by decide) (by decide) (by decide) (by intro o ho; simp [stEmpty] at ho),
   create_operation_get_file stEmpty "alpha" "d" 7 (some "xml") "tex" true
      (by decide) (by decide) (by decide) (by intro o ho; simp [stEmpty] at ho)⟩

/-! Lemmas characterizing a successful `import_permissions` run, used for the
idempotence and creator-preservation claims. -/

theorem newPermOf_fsts (l : List Permission) :
    (newPermOf l).map Prod.fst = l.map (fun p => p.u_id) := by
  unfold newPermOf
  rw [List.map_map]
  rfl

theorem isPermOf_fsts (l : List Permission) :
    (isPermOf l).map Prod.fst = l.map (fun p => p.u_id) := by
  unfold isPermOf
  rw [List.map_map]
  rfl

/-- Members of the pair list to be applied: never the requester, never the
target's creator, never at level creator. -/
theorem newPermOf_prop {st : MState} {i u w : Nat} {q : Nat × String}
    (hq : q ∈ newPermOf (importPerms st i u w)) :
    q.1 ≠ u ∧ q.1 ≠ w ∧ q.2 ≠ "creator" := by
  unfold newPermOf importPerms at hq
  rcases List.mem_map.mp hq with ⟨p, hp, hpe⟩
  rcases List.mem_filter.mp hp with ⟨hpm, hcond⟩
  rw [decide_eq_true_eq] at hcond
  obtain ⟨h1, h2, h3⟩ := hcond
  subst hpe
  refine ⟨h2, h3, ?_⟩
  show downgrade p.access_level ≠ "creator"
  unfold downgrade
  by_cases hcr : p.access_level = "creator"
  · rw [if_pos hcr]; decide
  · rw [if_neg hcr]; exact hcr

/-- With the unique `(u_id, op_id)` constraint holding, rows of one operation
have pairwise distinct user ids. -/
theorem nodup_filter_uids (l : List Permission) (pred : Permission → Bool)
    (opv : Nat) (hpred : ∀ p, pred p = true → p.op_id = opv)
    (h : dupKey l = false) :
    ((l.filter pred).map (fun p => p.u_id)).Nodup := by
  induction l with
  | nil => simp
  | cons p ps ih =>
    unfold dupKey at h
    rw [Bool.or_eq_false_iff] at h
    obtain ⟨hany, hdup⟩ := h
    by_cases hp : pred p = true
    · rw [List.filter_cons_of_pos hp, List.map_cons, List.nodup_cons]
      refine ⟨?_, ih hdup⟩
      intro hmem
      rcases List.mem_map.mp hmem with ⟨x, hx, hxu⟩
      rcases List.mem_filter.mp hx with ⟨hxm, hxpred⟩
      have hkey : sameKey p x = true := by
        unfold sameKey
        rw [decide_eq_true_eq]
        exact ⟨hxu.symm, by rw [hpred p hp, hpred x hxpred]⟩
      have : ps.any (sameKey p) = true := List.any_eq_true.mpr ⟨x, hxm, hkey⟩
      rw [hany] at this
      exact absurd this (by simp)
    · rw [List.filter_cons_of_neg (by simp [hp])]
      exact ih hdup

/-- The add loop of `import_permissions`, characterized: when no visible row
blocks an insert (and the pair list has unique user ids), the loop appends
exactly the pairs not already present. -/
theorem foldl_addStep_eq (current : Nat) (is_perm : List (Nat × String)) :
    ∀ (l : List (Nat × String)) (acc : List Permission),
    (∀ q ∈ l, q ∉ is_perm →
      acc.find? (fun p => decide (p.u_id = q.1 ∧ p.op_id = current)) = none) →
    (l.map Prod.fst).Nodup →
    l.foldl (addStep current is_perm) acc =
      acc ++ (l.filter (fun q => decide (q ∉ is_perm))).map
        (fun q => (⟨q.1, current, q.2⟩ : Permission)) := by
  intro l
  induction l with
  | nil => intro acc h hn; simp
  | cons q l ih =>
    intro acc h hn
    rw [List.map_cons, List.nodup_cons] at hn
    obtain ⟨hq1, hn'⟩ := hn
    by_cases hmem : q ∈ is_perm
    · have hstep : addStep current is_perm acc q = acc := by
        unfold addStep
        rw [if_neg]
        intro hcon
        exact hcon.1 hmem
      rw [List.foldl_cons, hstep,
        ih acc (fun q' hq' hq'n => h q' (List.mem_cons_of_mem _ hq') hq'n) hn',
        List.filter_cons_of_neg (by simp [hmem])]
    · have hfind := h q (List.mem_cons_self _ _) hmem
      have hstep : addStep current is_perm acc q =
          acc ++ [⟨q.1, current, q.2⟩] := by
        unfold addStep
        rw [if_pos ⟨hmem, hfind⟩]
      have hnext : ∀ q' ∈ l, q' ∉ is_perm →
          (acc ++ [(⟨q.1, current, q.2⟩ : Permission)]).find?
            (fun p => decide (p.u_id = q'.1 ∧ p.op_id = current)) = none := by
        intro q' hq' hq'n
        rw [List.find?_append, h q' (List.mem_cons_of_mem _ hq') hq'n]
        have hsingle : ([(⟨q.1, current, q.2⟩ : Permission)].find?
            (fun p => decide (p.u_id = q'.1 ∧ p.op_id = current))) = none := by
          apply List.find?_eq_none.mpr
          intro x hx
          rw [List.mem_singleton] at hx
          subst hx
          simp only [decide_eq_true_eq]
          intro hcon
          apply hq1
          rw [show q.1 = q'.1 from hcon.1]
          exact List.mem_map.mpr ⟨q', hq', rfl⟩
        rw [hsingle]
        rfl
      rw [List.foldl_cons, hstep,
        ih (acc ++ [(⟨q.1, current, q.2⟩ : Permission)]) hnext hn',
        List.filter_cons_of_pos (by simp [hmem]), List.map_cons,
        List.append_assoc]
      rfl

/-- No visible row blocks an insert of the add loop: rows of the target
operation surviving the delete loop are the creator row, the requester's rows,
and rows whose pair is itself in the pair list being applied. -/
theorem afterDelete_no_block {st : MState} {c u : Nat} {cp : Permission}
    {i : Nat}
    (hnodup : dupKey st.permissions = false)
    (honecreator : ∀ p ∈ st.permissions, p.op_id = c →
      p.access_level = "creator" → p.u_id = cp.u_id) :
    ∀ q ∈ newPermOf (importPerms st i u cp.u_id),
      q ∉ isPermOf (existingPerms st c u) →
      (afterDeletePerms st c u (newPermOf (importPerms st i u cp.u_id))).find?
        (fun p => decide (p.u_id = q.1 ∧ p.op_id = c)) = none := by
  intro q hq hqnotin
  apply List.find?_eq_none.mpr
  intro x hx
  simp only [decide_eq_true_eq]
  intro hcon
  obtain ⟨hxu, hxo⟩ := hcon
  unfold afterDeletePerms at hx
  rcases List.mem_filter.mp hx with ⟨hxm, hxkeep⟩
  rw [decide_eq_true_eq] at hxkeep
  obtain ⟨hqu, hqw, hqc⟩ := newPermOf_prop hq
  by_cases hxl : x.access_level = "creator"
  · have := honecreator x hxm hxo hxl
    rw [hxu] at this
    exact hqw this
  · have hxune : x.u_id ≠ u := by rw [hxu]; exact hqu
    have hpair : (x.u_id, x.access_level) ∈
        newPermOf (importPerms st i u cp.u_id) := by
      by_contra hnp
      exact hxkeep ⟨hxo, hxune, hxl, hnp⟩
    have hnd : ((newPermOf (importPerms st i u cp.u_id)).map Prod.fst).Nodup := by
      rw [newPermOf_fsts]
      exact nodup_filter_uids st.permissions _ i
        (fun p hp => (of_decide_eq_true hp).1) hnodup
    have hqq : (x.u_id, x.access_level) = q :=
      List.inj_on_of_nodup_map hnd hpair hq hxu
    have hxe : x ∈ existingPerms st c u := by
      unfold existingPerms
      exact List.mem_filter.mpr ⟨hxm, decide_eq_true ⟨hxo, hxune, hxl⟩⟩
    apply hqnotin
    rw [← hqq]
    exact List.mem_map.mpr ⟨x, hxe, rfl⟩

/-- Inversion of a successful `import_permissions` call. -/
theorem import_permissions_success_inv {st : MState} {i c u : Nat}
    {st' : MState} {ev : Option ImportEvents}
    (h : import_permissions st i c u = .ok (st', (true, ev, "success"))) :
    ¬(is_creator st u c = false ∧ is_admin st u c = false) ∧
    (∃ p0, findPermission st u i = some p0) ∧
    ∃ cp, findCreatorPerm st c = some cp ∧
      sortPairs (newPermOf (importPerms st i u cp.u_id)) ≠
        sortPairs (isPermOf (existingPerms st c u)) ∧
      dupKey ((newPermOf (importPerms st i u cp.u_id)).foldl
        (addStep c (isPermOf (existingPerms st c u)))
        (afterDeletePerms st c u (newPermOf (importPerms st i u cp.u_id)))) = false ∧
      st' = { st with permissions := ((newPermOf (importPerms st i u cp.u_id)).foldl
        (addStep c (isPermOf (existingPerms st c u)))
        (afterDeletePerms st c u (newPermOf (importPerms st i u cp.u_id)))) } := by
  simp only [import_permissions] at h
  by_cases h1 : is_creator st u c = false ∧ is_admin st u c = false
  · rw [if_pos h1] at h
    simp at h
  · rw [if_neg h1] at h
    refine ⟨h1, ?_⟩
    rcases hfp : findPermission st u i with _ | p0 <;> rw [hfp] at h
    · simp at h
    · refine ⟨⟨p0, rfl⟩, ?_⟩
      rcases hcp : findCreatorPerm st c with _ | cp <;> rw [hcp] at h
      · simp at h
      · dsimp only at h
        refine ⟨cp, rfl, ?_⟩
        by_cases hs : sortPairs (newPermOf (importPerms st i u cp.u_id)) =
            sortPairs (isPermOf (existingPerms st c u))
        · rw [if_pos hs] at h
          simp at h
        · rw [if_neg hs] at h
          refine ⟨hs, ?_⟩
          by_cases hd : dupKey ((newPermOf (importPerms st i u cp.u_id)).foldl
              (addStep c (isPermOf (existingPerms st c u)))
              (afterDeletePerms st c u
                (newPermOf (importPerms st i u cp.u_id)))) = true
          · rw [if_pos hd] at h
            simp at h
          · rw [if_neg hd] at h
            rw [Bool.not_eq_true] at hd
            refine ⟨hd, ?_⟩
            simp only [Except.ok.injEq, Prod.mk.injEq] at h
            exact h.1.symm

/-- Inversion of any `import_permissions` call that returns: either it
returned early reporting failure and left the state unchanged, or it reported
success and replaced the permission table by the delete/add loop's result. -/
theorem import_permissions_ok_inv {st : MState} {i c u : Nat}
    {st' : MState} {r : Bool × Option ImportEvents × String}
    (h : import_permissions st i c u = .ok (st', r)) :
    (st' = st ∧ r.1 = false) ∨
    (r.1 = true ∧ ∃ cp, findCreatorPerm st c = some cp ∧
      st' = { st with permissions := ((newPermOf (importPerms st i u cp.u_id)).foldl
        (addStep c (isPermOf (existingPerms st c u)))
        (afterDeletePerms st c u (newPermOf (importPerms st i u cp.u_id)))) }) := by
  simp only [import_permissions] at h
  by_cases h1 : is_creator st u c = false ∧ is_admin st u c = false
  · rw [if_pos h1] at h
    simp only [Except.ok.injEq, Prod.mk.injEq] at h
    exact Or.inl ⟨h.1.symm, by rw [← h.2]⟩
  · rw [if_neg h1] at h
    rcases hfp : findPermission st u i with _ | p0 <;> rw [hfp] at h
    · simp only [Except.ok.injEq, Prod.mk.injEq] at h
      exact Or.inl ⟨h.1.symm, by rw [← h.2]⟩
    · rcases hcp : findCreatorPerm st c with _ | cp <;> rw [hcp] at h
      · simp at h
      · dsimp only at h
        by_cases hs : sortPairs (newPermOf (importPerms st i u cp.u_id)) =
            sortPairs (isPermOf (existingPerms st c u))
        · rw [if_pos hs] at h
          simp only [Except.ok.injEq, Prod.mk.injEq] at h
          exact Or.inl ⟨h.1.symm, by rw [← h.2]⟩
        · rw [if_neg hs] at h
          by_cases hd : dupKey ((newPermOf (importPerms st i u cp.u_id)).foldl
              (addStep c (isPermOf (existingPerms st c u)))
              (afterDeletePerms st c u
                (newPermOf (importPerms st i u cp.u_id)))) = true
          · rw [if_pos hd] at h
            simp only [Except.ok.injEq, Prod.mk.injEq] at h
            exact Or.inl ⟨h.1.symm, by rw [← h.2]⟩
          · rw [if_neg hd] at h
            simp only [Except.ok.injEq, Prod.mk.injEq] at h
            exact Or.inr ⟨by rw [← h.2], cp, rfl, h.1.symm⟩

/-- Claim C6: no call to `import_permissions` deletes or modifies a
creator-level Permission row of the target operation (every such row of the
input state is still present in the output state), and on success every
permission copied from the source operation at level creator is applied to the
target at level admin. The hypotheses are the data-model invariants: the
unique `(u_id, op_id)` constraint and at most one creator row per operation. -/
theorem import_permissions_creator_preserved (st : MState) (i c u : Nat)
    (st' : MState) (r : Bool × Option ImportEvents × String)
    (hnodup : dupKey st.permissions = false)
    (honecreator : ∀ p ∈ st.permissions, ∀ p' ∈ st.permissions,
      p.op_id = c → p'.op_id = c → p.access_level = "creator" →
      p'.access_level = "creator" → p.u_id = p'.u_id)
    (h : import_permissions st i c u = .ok (st', r)) :
    (∀ p ∈ st.permissions, p.op_id = c → p.access_level = "creator" →
      p ∈ st'.permissions) ∧
    (r.1 = true → ∀ cp, findCreatorPerm st c = some cp →
      ∀ p ∈ st.permissions, p.op_id = i → p.access_level = "creator" →
      p.u_id ≠ u → p.u_id ≠ cp.u_id →
      Permission.mk p.u_id c "admin" ∈ st'.permissions) := by
  constructor
  · intro p hp ho hl
    rcases import_permissions_ok_inv h with ⟨hst, _⟩ | ⟨hr1, cp, hcp, hst⟩
    · rw [hst]
      exact hp
    · rw [hst]
      show p ∈ (newPermOf (importPerms st i u cp.u_id)).foldl
        (addStep c (isPermOf (existingPerms st c u)))
        (afterDeletePerms st c u (newPermOf (importPerms st i u cp.u_id)))
      apply mem_foldl_addStep
      unfold afterDeletePerms
      refine List.mem_filter.mpr ⟨hp, ?_⟩
      rw [decide_eq_true_eq]
      intro hcon
      exact hcon.2.2.1 hl
  · intro hr1 cp hcpgiven p hp hpi hpl hpu hpcp
    rcases import_permissions_ok_inv h with ⟨hst, hrf⟩ | ⟨_, cp', hcp', hst⟩
    · rw [hrf] at hr1
      exact absurd hr1 (by simp)
    · rw [hcpgiven] at hcp'
      injection hcp' with hcpe
      subst hcpe
      have honecp : ∀ p' ∈ st.permissions, p'.op_id = c →
          p'.access_level = "creator" → p'.u_id = cp.u_id := by
        intro p' hp' ho' hl'
        have hcpg2 := hcpgiven
        unfold findCreatorPerm at hcpg2
        have hcpm := List.mem_of_find?_eq_some hcpg2
        have hcpp := List.find?_some hcpg2
        rw [decide_eq_true_eq] at hcpp
        exact honecreator p' hp' cp hcpm ho' hcpp.1 hl' hcpp.2
      have hnd : ((newPermOf (importPerms st i u cp.u_id)).map Prod.fst).Nodup := by
        rw [newPermOf_fsts]
        unfold importPerms
        exact nodup_filter_uids st.permissions _ i
          (fun p hp => (of_decide_eq_true hp).1) hnodup
      have hfinal : (newPermOf (importPerms st i u cp.u_id)).foldl
          (addStep c (isPermOf (existingPerms st c u)))
          (afterDeletePerms st c u (newPermOf (importPerms st i u cp.u_id))) =
          afterDeletePerms st c u (newPermOf (importPerms st i u cp.u_id)) ++
            ((newPermOf (importPerms st i u cp.u_id)).filter
              (fun q => decide (q ∉ isPermOf (existingPerms st c u)))).map
              (fun q => (⟨q.1, c, q.2⟩ : Permission)) :=
        foldl_addStep_eq c (isPermOf (existingPerms st c u)) _ _
          (afterDelete_no_block hnodup honecp) hnd
      have hqmem : (p.u_id, "admin") ∈ newPermOf (importPerms st i u cp.u_id) := by
        unfold newPermOf importPerms
        apply List.mem_map.mpr
        refine ⟨p, List.mem_filter.mpr ⟨hp, decide_eq_true ⟨hpi, hpu, hpcp⟩⟩, ?_⟩
        show (p.u_id, downgrade p.access_level) = (p.u_id, "admin")
        rw [hpl]
        rfl
      rw [hst]
      show Permission.mk p.u_id c "admin" ∈
        (newPermOf (importPerms st i u cp.u_id)).foldl
          (addStep c (isPermOf (existingPerms st c u)))
          (afterDeletePerms st c u (newPermOf (importPerms st i u cp.u_id)))
      rw [hfinal]
      by_cases hinis : (p.u_id, "admin") ∈ isPermOf (existingPerms st c u)
      · apply List.mem_append_left
        rcases List.mem_map.mp hinis with ⟨x, hxe, hxq⟩
        have hxe2 := hxe
        unfold existingPerms at hxe2
        rcases List.mem_filter.mp hxe2 with ⟨hxm, hxd⟩
        rw [decide_eq_true_eq] at hxd
        obtain ⟨hxo, hxu, hxl⟩ := hxd
        rw [Prod.mk.injEq] at hxq
        obtain ⟨hx1, hx2⟩ := hxq
        have hxeq : Permission.mk p.u_id c "admin" = x := by
          cases x
          simp_all
        rw [hxeq]
        unfold afterDeletePerms
        refine List.mem_filter.mpr ⟨hxm, ?_⟩
        rw [decide_eq_true_eq]
        intro hcon
        apply hcon.2.2.2
        show (x.u_id, x.access_level) ∈ _
        rw [hx1, hx2]
        exact hqmem
      · apply List.mem_append_right
        apply List.mem_map.mpr
        exact ⟨(p.u_id, "admin"),
          List.mem_filter.mpr ⟨hqmem, decide_eq_true hinis⟩, rfl⟩

/-- Claim C6 witness: importing operation 1 onto operation 2 of
`stImportCreator` (requester 1, target creator 2, source creator-level row for
user 6) keeps the target's creator row and maps user 6 to level admin. -/
theorem import_permissions_creator_preserved_witness :
    (⟨2, 2, "creator"⟩ : Permission) ∈ ({ stImportCreator with permissions :=
      stImportCreator.permissions ++ [⟨6, 2, "admin"⟩] } : MState).permissions ∧
    (⟨6, 2, "admin"⟩ : Permission) ∈ ({ stImportCreator with permissions :=
      stImportCreator.permissions ++ [⟨6, 2, "admin"⟩] } : MState).permissions :=
  ⟨(import_permissions_creator_preserved stImportCreator 1 2 1
      { stImportCreator with permissions :=
        stImportCreator.permissions ++ [⟨6, 2, "admin"⟩] }
      (true, some ⟨[6], [], []⟩, "success")
      (by decide) (by decide) (by decide)).1
      ⟨2, 2, "creator"⟩ (by decide) (by decide) (by decide),
   (import_permissions_creator_preserved stImportCreator 1 2 1
      { stImportCreator with permissions :=
        stImportCreator.permissions ++ [⟨6, 2, "admin"⟩] }
      (true, some ⟨[6], [], []⟩, "success")
      (by decide) (by decide) (by decide)).2
      (by decide) ⟨2, 2, "creator"⟩ (by decide) ⟨6, 1, "creator"⟩ (by decide)
      (by decide) (by decide) (by decide) (by decide)⟩

/-- Claim C4 (counterexample): on `stImport` the first import of operation 1
onto operation 2 succeeds; the repeated call returns
`(False, None, "Permissions are already given")` — not the tuple
`(False, None, "already applied")` the claim states. -/
theorem import_permissions_message_cex :
    import_permissions stImport 1 2 1 =
      .ok (stImportDone, (true, some ⟨[5], [], []⟩, "success")) ∧
    import_permissions stImportDone 1 2 1 =
      .ok (stImportDone, (false, none, "Permissions are already given")) ∧
    import_permissions stImportDone 1 2 1 ≠
      .ok (stImportDone, (false, none, "already applied")) :=
  ⟨by decide, by decide, by decide⟩

/-- Claim C4 (amended): `import_permissions` is idempotent. Under the
data-model invariants (unique `(u_id, op_id)` pairs, at most one creator-level
row per operation) and for distinct source and target operations, after a
successful call a second call with the same arguments and no intervening
permission change returns `(False, None, "Permissions are already given")` and
changes no Permission rows — it returns the input state itself. -/
theorem import_permissions_idempotent (st : MState) (i c u : Nat)
    (st' : MState) (ev : Option ImportEvents)
    (hic : i ≠ c)
    (hnodup : dupKey st.permissions = false)
    (honecreator : ∀ p ∈ st.permissions, ∀ p' ∈ st.permissions,
      p.op_id = c → p'.op_id = c → p.access_level = "creator" →
      p'.access_level = "creator" → p.u_id = p'.u_id)
    (h : import_permissions st i c u = .ok (st', (true, ev, "success"))) :
    import_permissions st' i c u =
      .ok (st', (false, none, "Permissions are already given")) := by
  obtain ⟨hauth1, ⟨p0, hfp⟩, cp, hcp, hsorted, hdup, hst⟩ :=
    import_permissions_success_inv h
  have honecp : ∀ p' ∈ st.permissions, p'.op_id = c →
      p'.access_level = "creator" → p'.u_id = cp.u_id := by
    intro p' hp' ho' hl'
    have hcpg2 := hcp
    unfold findCreatorPerm at hcpg2
    have hcpm := List.mem_of_find?_eq_some hcpg2
    have hcpp := List.find?_some hcpg2
    rw [decide_eq_true_eq] at hcpp
    exact honecreator p' hp' cp hcpm ho' hcpp.1 hl' hcpp.2
  have hnd : ((newPermOf (importPerms st i u cp.u_id)).map Prod.fst).Nodup := by
    rw [newPermOf_fsts]
    unfold importPerms
    exact nodup_filter_uids st.permissions _ i
      (fun p hp => (of_decide_eq_true hp).1) hnodup
  have hndis : ((isPermOf (existingPerms st c u)).map Prod.fst).Nodup := by
    rw [isPermOf_fsts]
    unfold existingPerms
    exact nodup_filter_uids st.permissions _ c
      (fun p hp => (of_decide_eq_true hp).1) hnodup
  have hfinal : (newPermOf (importPerms st i u cp.u_id)).foldl
      (addStep c (isPermOf (existingPerms st c u)))
      (afterDeletePerms st c u (newPermOf (importPerms st i u cp.u_id))) =
      afterDeletePerms st c u (newPermOf (importPerms st i u cp.u_id)) ++
        ((newPermOf (importPerms st i u cp.u_id)).filter
          (fun q => decide (q ∉ isPermOf (existingPerms st c u)))).map
          (fun q => (⟨q.1, c, q.2⟩ : Permission)) :=
    foldl_addStep_eq c (isPermOf (existingPerms st c u)) _ _
      (afterDelete_no_block hnodup honecp) hnd
  have hperm' : st'.permissions =
      afterDeletePerms st c u (newPermOf (importPerms st i u cp.u_id)) ++
        ((newPermOf (importPerms st i u cp.u_id)).filter
          (fun q => decide (q ∉ isPermOf (existingPerms st c u)))).map
          (fun q => (⟨q.1, c, q.2⟩ : Permission)) := by
    rw [hst]
    exact hfinal
  have hadded : ∀ x ∈ ((newPermOf (importPerms st i u cp.u_id)).filter
      (fun q => decide (q ∉ isPermOf (existingPerms st c u)))).map
      (fun q => (⟨q.1, c, q.2⟩ : Permission)),
      ∃ q ∈ newPermOf (importPerms st i u cp.u_id),
        q ∉ isPermOf (existingPerms st c u) ∧ x = ⟨q.1, c, q.2⟩ := by
    intro x hx
    rcases List.mem_map.mp hx with ⟨q, hqf, hxe⟩
    rcases List.mem_filter.mp hqf with ⟨hqm, hqd⟩
    exact ⟨q, hqm, of_decide_eq_true hqd, hxe.symm⟩
  have hfp2 : ∀ op', findPermission st' u op' = findPermission st u op' := by
    intro op'
    unfold findPermission
    rw [hperm']
    rw [find?_append_of_none]
    · show (afterDeletePerms st c u _).find? _ = _
      unfold afterDeletePerms
      apply find?_filter_eq
      intro x hpx
      rw [decide_eq_true_eq] at hpx
      apply decide_eq_true
      intro hcon
      exact hcon.2.1 hpx.1
    · intro x hx
      rcases hadded x hx with ⟨q, hqm, hqni, hxe⟩
      obtain ⟨hqu, _, _⟩ := newPermOf_prop hqm
      apply decide_eq_false
      intro hcon
      rw [hxe] at hcon
      exact hqu hcon.1
  have hcp2 : findCreatorPerm st' c = some cp := by
    unfold findCreatorPerm
    rw [hperm']
    rw [find?_append_of_none]
    · show (afterDeletePerms st c u _).find? _ = _
      unfold afterDeletePerms
      rw [find?_filter_eq]
      · exact hcp
      · intro x hpx
        rw [decide_eq_true_eq] at hpx
        apply decide_eq_true
        intro hcon
        exact hcon.2.2.1 hpx.2
    · intro x hx
      rcases hadded x hx with ⟨q, hqm, hqni, hxe⟩
      obtain ⟨_, _, hqc⟩ := newPermOf_prop hqm
      apply decide_eq_false
      intro hcon
      rw [hxe] at hcon
      exact hqc hcon.2
  have himp2 : importPerms st' i u cp.u_id = importPerms st i u cp.u_id := by
    unfold importPerms
    rw [hperm', List.filter_append]
    have h2 : (((newPermOf (importPerms st i u cp.u_id)).filter
        (fun q => decide (q ∉ isPermOf (existingPerms st c u)))).map
        (fun q => (⟨q.1, c, q.2⟩ : Permission))).filter
        (fun p => decide (p.op_id = i ∧ p.u_id ≠ u ∧ p.u_id ≠ cp.u_id)) = [] := by
      rw [List.filter_eq_nil_iff]
      intro x hx
      rcases hadded x hx with ⟨q, hqm, hqni, hxe⟩
      rw [hxe]
      simp only [decide_eq_true_eq]
      intro hcon
      exact hic hcon.1.symm
    rw [h2, List.append_nil]
    show (afterDeletePerms st c u _).filter _ = _
    unfold afterDeletePerms
    apply filter_filter_eq
    intro x hpx
    rw [decide_eq_true_eq] at hpx
    apply decide_eq_true
    intro hcon
    exact hic (hpx.1 ▸ hcon.1)
  have hex2 : existingPerms st' c u =
      (existingPerms st c u).filter
        (fun p => decide ((p.u_id, p.access_level) ∈
          newPermOf (importPerms st i u cp.u_id))) ++
      ((newPermOf (importPerms st i u cp.u_id)).filter
        (fun q => decide (q ∉ isPermOf (existingPerms st c u)))).map
        (fun q => (⟨q.1, c, q.2⟩ : Permission)) := by
    unfold existingPerms
    rw [hperm', List.filter_append]
    congr 1
    · show (afterDeletePerms st c u _).filter _ = _
      unfold afterDeletePerms
      rw [List.filter_filter, List.filter_filter]
      apply List.filter_congr
      intro x hx
      by_cases hE : x.op_id = c ∧ x.u_id ≠ u ∧ x.access_level ≠ "creator"
      · have hK : decide (¬(x.op_id = c ∧ x.u_id ≠ u ∧ x.access_level ≠ "creator" ∧
            (x.u_id, x.access_level) ∉ newPermOf (importPerms st i u cp.u_id))) =
            decide ((x.u_id, x.access_level) ∈
              newPermOf (importPerms st i u cp.u_id)) := by
          apply decide_eq_decide.mpr
          constructor
          · intro hnot
            by_contra hni
            exact hnot ⟨hE.1, hE.2.1, hE.2.2, hni⟩
          · intro hin hcon
            exact hcon.2.2.2 hin
        rw [decide_eq_true hE, hK, Bool.and_true, Bool.true_and]
      · rw [decide_eq_false hE, Bool.and_false, Bool.false_and]
    · apply List.filter_eq_self.mpr
      intro x hx
      rcases hadded x hx with ⟨q, hqm, hqni, hxe⟩
      obtain ⟨hqu, hqw, hqc⟩ := newPermOf_prop hqm
      rw [hxe]
      exact decide_eq_true ⟨rfl, hqu, hqc⟩
  have hisp2 : isPermOf (existingPerms st' c u) =
      (isPermOf (existingPerms st c u)).filter
        (fun q => decide (q ∈ newPermOf (importPerms st i u cp.u_id))) ++
      (newPermOf (importPerms st i u cp.u_id)).filter
        (fun q => decide (q ∉ isPermOf (existingPerms st c u))) := by
    rw [hex2]
    unfold isPermOf
    rw [List.map_append]
    congr 1
    · exact map_filter_comp (fun p : Permission => (p.u_id, p.access_level))
        (fun q => decide (q ∈ newPermOf (importPerms st i u cp.u_id)))
        (existingPerms st c u)
    · rw [List.map_map]
      have hcompid : ((fun p : Permission => (p.u_id, p.access_level)) ∘
          (fun q : Nat × String => (⟨q.1, c, q.2⟩ : Permission))) = id := by
        funext q
        rfl
      rw [hcompid, List.map_id]
  have hperm_lists : List.Perm
      ((isPermOf (existingPerms st c u)).filter
        (fun q => decide (q ∈ newPermOf (importPerms st i u cp.u_id))) ++
       (newPermOf (importPerms st i u cp.u_id)).filter
        (fun q => decide (q ∉ isPermOf (existingPerms st c u))))
      (newPermOf (importPerms st i u cp.u_id)) := by
    have hAC : List.Perm
        ((isPermOf (existingPerms st c u)).filter
          (fun q => decide (q ∈ newPermOf (importPerms st i u cp.u_id))))
        ((newPermOf (importPerms st i u cp.u_id)).filter
          (fun q => decide (q ∈ isPermOf (existingPerms st c u)))) := by
      apply (List.perm_ext_iff_of_nodup ((hndis.of_map Prod.fst).filter _)
        ((hnd.of_map Prod.fst).filter _)).mpr
      intro a
      simp only [List.mem_filter, decide_eq_true_eq]
      tauto
    have hCB : List.Perm
        ((newPermOf (importPerms st i u cp.u_id)).filter
          (fun q => decide (q ∈ isPermOf (existingPerms st c u))) ++
         (newPermOf (importPerms st i u cp.u_id)).filter
          (fun q => decide (q ∉ isPermOf (existingPerms st c u))))
        (newPermOf (importPerms st i u cp.u_id)) := by
      have hfap := List.filter_append_perm
        (fun q => decide (q ∈ isPermOf (existingPerms st c u)))
        (newPermOf (importPerms st i u cp.u_id))
      have hcongr : (newPermOf (importPerms st i u cp.u_id)).filter
          (fun x => !decide (x ∈ isPermOf (existingPerms st c u))) =
          (newPermOf (importPerms st i u cp.u_id)).filter
          (fun q => decide (q ∉ isPermOf (existingPerms st c u))) := by
        apply List.filter_congr
        intro x hx
        rw [decide_not]
      rw [hcongr] at hfap
      exact hfap
    exact (hAC.append_right _).trans hCB
  have hic2 : is_creator st' u c = is_creator st u c := by
    unfold is_creator
    rw [hfp2 c]
  have hia2 : is_admin st' u c = is_admin st u c := by
    unfold is_admin
    rw [hfp2 c]
  simp only [import_permissions]
  rw [hic2, hia2, if_neg hauth1, hfp2 i, hfp]
  dsimp only
  rw [hcp2]
  dsimp only
  rw [himp2, hisp2]
  rw [if_pos ((sortPairs_eq_of_perm hperm_lists).symm)]

/-- Claim C4 witness: the amended idempotence applied to `stImport`: the
first import of operation 1 onto operation 2 succeeds, and the repeated call
on the resulting state `stImportDone` reports the permissions already given
and returns the state unchanged. -/
theorem import_permissions_idempotent_witness :
    import_permissions stImportDone 1 2 1 =
      .ok (stImportDone, (false, none, "Permissions are already given")) :=
  import_permissions_idempotent stImport 1 2 1 stImportDone
    (some ⟨[5], [], []⟩) (by decide) (by decide) (by decide) (by decide)

end MSS
